import Mathlib

/-!
Verification of the grid-partition / coverage-filter / stratified-sampler
core of the Segment-huge-service-layer-into-tiles scripts.

The Python sources are shallowly embedded over exact rationals (ℚ):
float arithmetic in the scripts is modelled by exact rational arithmetic
on the literal constants appearing in the source, calls into the external
`arcpy` geometry engine (intersection areas, contains / overlaps tests,
no-data lookups) are modelled as oracle parameters, and calls to the
`random` module are modelled as explicit oracle streams whose documented
ranges become hypotheses.
-/

namespace SegTiles

/-- Axis-aligned extent `{xmin, ymin, xmax, ymax}` as produced by
`arcpy.Describe(...).extent` (fields `XMin`, `YMin`, `XMax`, `YMax`). -/
structure Extent where
  xmin : ℚ
  ymin : ℚ
  xmax : ℚ
  ymax : ℚ
deriving DecidableEq

/-! ### Grid Partitioner — `create_classification_sections.py`, `create_geographic_sections` -/

/-- Grid-layout heuristic, `create_classification_sections.py` lines 64-71:
returns `(cols, rows)` for a target section count. -/
def gridLayout (numSections : ℕ) : ℕ × ℕ :=
  if numSections ≤ 4 then (2, 2)
  else if numSections ≤ 6 then (3, 2)
  else if numSections ≤ 9 then (3, 3)
  else (4, 3)

/-- Number of cells actually emitted, lines 74-79: the full grid, trimmed to
`num_sections` when the grid has more cells than requested. -/
def sectionsToCreate (numSections : ℕ) : ℕ :=
  let cols := (gridLayout numSections).1
  let rows := (gridLayout numSections).2
  if cols * rows > numSections then numSections else cols * rows

/-- Cell width `section_width = total_width / cols`, line 86. -/
def sectionWidth (e : Extent) (cols : ℕ) : ℚ := (e.xmax - e.xmin) / cols

/-- Cell height `section_height = total_height / rows`, line 87. -/
def sectionHeight (e : Extent) (rows : ℕ) : ℚ := (e.ymax - e.ymin) / rows

/-- One grid cell: 0-based `row`/`col` (reported 1-based as `R{row+1}C{col+1}`)
plus its rectangle. -/
structure GridCell where
  row : ℕ
  col : ℕ
  xmin : ℚ
  ymin : ℚ
  xmax : ℚ
  ymax : ℚ
deriving DecidableEq

/-- Section bounds of cell `(row, col)`, lines 100-104:
`xmin + col*sw ≤ x ≤ xmin + (col+1)*sw`, likewise for `y`.  No clamping is
applied in this script; in exact arithmetic the last row/column land on
`XMax`/`YMax` exactly. -/
def sectionCell (e : Extent) (rows cols : ℕ) (row col : ℕ) : GridCell :=
  { row := row, col := col
    xmin := e.xmin + col * sectionWidth e cols
    xmax := e.xmin + (col + 1) * sectionWidth e cols
    ymin := e.ymin + row * sectionHeight e rows
    ymax := e.ymin + (row + 1) * sectionHeight e rows }

/-- Row-major enumeration of grid positions, mirroring the nested
`for row in range(rows): for col in range(cols):` loop of lines 95-96. -/
def rowMajorIdx (rows cols : ℕ) : List (ℕ × ℕ) :=
  (List.range rows).flatMap (fun r => (List.range cols).map (fun c => (r, c)))

/-- The full (untrimmed) row-major grid of cells. -/
def partitionCells (e : Extent) (rows cols : ℕ) : List GridCell :=
  (rowMajorIdx rows cols).map (fun rc => sectionCell e rows cols rc.1 rc.2)

/-- Loop body of lines 95-151 restricted to cell generation: the running
`section_id` starts at 1 and the loop stops adding cells once
`section_id > sections_to_create` (the source `break` exits the inner loop;
since `section_id` only grows, every later iteration also skips, so cutting
off the whole remainder is equivalent). -/
def sectionLoopGo (e : Extent) (rows cols s : ℕ) :
    List (ℕ × ℕ) → ℕ → List GridCell
  | [], _ => []
  | rc :: rest, id =>
      if s < id then []
      else sectionCell e rows cols rc.1 rc.2 :: sectionLoopGo e rows cols s rest (id + 1)

/-- The cells considered by `create_geographic_sections` before the coverage
filter: the row-major grid truncated at `sections_to_create`. -/
def consideredCells (e : Extent) (numSections : ℕ) : List GridCell :=
  let cols := (gridLayout numSections).1
  let rows := (gridLayout numSections).2
  sectionLoopGo e rows cols (sectionsToCreate numSections) (rowMajorIdx rows cols) 1

/-- A retained section: the cell plus its intersection area with the boundary
(`area_sqkm`), lines 140-147. -/
structure SectionInfo where
  cell : GridCell
  areaSqkm : ℚ
deriving DecidableEq

/-- Coverage filter of lines 133-151: `area_sqkm` is the boundary-intersection
area delivered by the external `arcpy.analysis.Intersect` call (here an oracle
`areaOf`); a cell is kept iff `area_sqkm > 1` (absolute 1 km² threshold).
Dropped cells leave no record of any kind — the source records no rejection
reason. -/
def createGeographicSections (e : Extent) (numSections : ℕ)
    (areaOf : GridCell → ℚ) : List SectionInfo :=
  ((consideredCells e numSections).filter (fun c => 1 < areaOf c)).map
    (fun c => { cell := c, areaSqkm := areaOf c })

/-! ### Tile grid with clamping — `script_full_extent_tiles.py` lines 147-150 -/

/-- Bounds of one fixed-size tile. -/
structure TileBounds where
  x0 : ℚ
  y0 : ℚ
  x1 : ℚ
  y1 : ℚ
deriving DecidableEq

/-- Tile boundary computation of lines 147-150: fixed tile size, upper bounds
clamped with `min(..., xmax)` / `min(..., ymax)` ("Don't exceed layer extent"). -/
def tileExtent (e : Extent) (tileSize : ℚ) (row col : ℕ) : TileBounds :=
  let x0 := e.xmin + col * tileSize
  let y0 := e.ymin + row * tileSize
  { x0 := x0, y0 := y0
    x1 := min (x0 + tileSize) e.xmax
    y1 := min (y0 + tileSize) e.ymax }

/-! ### Helper lemmas about the partition -/

/-- The truncating loop equals `take` of the row-major cell list. -/
theorem sectionLoopGo_eq_take (e : Extent) (rows cols s : ℕ) :
    ∀ (l : List (ℕ × ℕ)) (i0 : ℕ),
      sectionLoopGo e rows cols s l i0 =
        (l.map (fun rc => sectionCell e rows cols rc.1 rc.2)).take (s + 1 - i0) := by
  intro l
  induction l with
  | nil => intro i0; simp [sectionLoopGo]
  | cons rc rest ih =>
      intro i0
      by_cases h : s < i0
      · have h0 : s + 1 - i0 = 0 := by omega
        simp [sectionLoopGo, h, h0]
      · have h1 : s + 1 - i0 = (s + 1 - (i0 + 1)) + 1 := by omega
        simp [sectionLoopGo, h, h1, ih]

theorem consideredCells_eq_take (e : Extent) (numSections : ℕ) :
    consideredCells e numSections =
      (partitionCells e (gridLayout numSections).2 (gridLayout numSections).1).take
        (sectionsToCreate numSections) := by
  unfold consideredCells partitionCells
  rw [sectionLoopGo_eq_take]
  simp

theorem length_rowMajorIdx (rows cols : ℕ) :
    (rowMajorIdx rows cols).length = rows * cols := by
  induction rows with
  | zero => simp [rowMajorIdx]
  | succ n ih =>
      have h : rowMajorIdx (n + 1) cols =
          rowMajorIdx n cols ++ (List.range cols).map (fun c => (n, c)) := by
        simp [rowMajorIdx, List.range_succ]
      rw [h, List.length_append, ih, List.length_map, List.length_range]
      ring

theorem length_partitionCells (e : Extent) (rows cols : ℕ) :
    (partitionCells e rows cols).length = rows * cols := by
  unfold partitionCells
  simp [length_rowMajorIdx]

/-- Little interval lemma: a point of `[a, b]` lies in one of the `n`
equal-width subintervals (the index found by flooring, clamped to the last
subinterval for the right endpoint). -/
theorem exists_subinterval (a b : ℚ) (n : ℕ) (hn : 0 < n) (hab : a < b)
    (x : ℚ) (hx1 : a ≤ x) (hx2 : x ≤ b) :
    ∃ c < n, a + c * ((b - a) / n) ≤ x ∧ x ≤ a + (c + 1) * ((b - a) / n) := by
  set w : ℚ := (b - a) / n with hw
  have hnQ : (0 : ℚ) < n := by exact_mod_cast hn
  have hwpos : 0 < w := by
    rw [hw]
    exact div_pos (by linarith) hnQ
  set t : ℚ := (x - a) / w with ht
  have htn : t ≤ n := by
    rw [ht]
    rw [div_le_iff₀ hwpos]
    have : (n : ℚ) * w = b - a := by
      rw [hw]; field_simp
    linarith [this]
  have ht0 : 0 ≤ t := by
    rw [ht]
    exact div_nonneg (by linarith) (le_of_lt hwpos)
  have hfl0 : 0 ≤ ⌊t⌋ := Int.floor_nonneg.mpr ht0
  by_cases hcase : ⌊t⌋ < (n : ℤ)
  · refine ⟨⌊t⌋.toNat, ?_, ?_, ?_⟩
    · omega
    · have h1 : (⌊t⌋ : ℚ) ≤ t := Int.floor_le t
      have h2 : ((⌊t⌋.toNat : ℕ) : ℚ) = (⌊t⌋ : ℚ) := by
        exact_mod_cast Int.toNat_of_nonneg hfl0
      have h3 : (⌊t⌋ : ℚ) * w ≤ t * w :=
        mul_le_mul_of_nonneg_right h1 (le_of_lt hwpos)
      have h4 : t * w = x - a := by
        rw [ht]; field_simp
      rw [h2]
      linarith
    · have h1 : t < (⌊t⌋ : ℚ) + 1 := Int.lt_floor_add_one t
      have h2 : ((⌊t⌋.toNat : ℕ) : ℚ) = (⌊t⌋ : ℚ) := by
        exact_mod_cast Int.toNat_of_nonneg hfl0
      have h3 : t * w < ((⌊t⌋ : ℚ) + 1) * w :=
        mul_lt_mul_of_pos_right h1 hwpos
      have h4 : t * w = x - a := by
        rw [ht]; field_simp
      rw [h2]
      linarith
  · -- ⌊t⌋ ≥ n forces t = n, i.e. x = b; use the last subinterval.
    have hge : (n : ℤ) ≤ ⌊t⌋ := le_of_not_lt hcase
    have hge' : (n : ℚ) ≤ t := by
      have := Int.le_floor.mp (le_refl ⌊t⌋)
      calc (n : ℚ) = ((n : ℤ) : ℚ) := by norm_cast
        _ ≤ (⌊t⌋ : ℚ) := by exact_mod_cast hge
        _ ≤ t := Int.floor_le t
    have hteq : t = n := le_antisymm htn hge'
    have hxb : x = b := by
      have : t * w = x - a := by rw [ht]; field_simp
      have hnw : (n : ℚ) * w = b - a := by rw [hw]; field_simp
      rw [hteq] at this
      linarith
    refine ⟨n - 1, by omega, ?_, ?_⟩
    · have hcast : (((n : ℕ) - 1 : ℕ) : ℚ) = (n : ℚ) - 1 := by
        have : (1 : ℕ) ≤ n := hn
        push_cast [Nat.cast_sub this]
        ring
      have hnw : (n : ℚ) * w = b - a := by rw [hw]; field_simp
      rw [hcast, hxb]
      nlinarith
    · have hcast : (((n : ℕ) - 1 : ℕ) : ℚ) = (n : ℚ) - 1 := by
        have : (1 : ℕ) ≤ n := hn
        push_cast [Nat.cast_sub this]
        ring
      have hnw : (n : ℚ) * w = b - a := by rw [hw]; field_simp
      rw [hcast, hxb]
      nlinarith

/-- Area of a grid cell's rectangle. -/
def cellArea (c : GridCell) : ℚ := (c.xmax - c.xmin) * (c.ymax - c.ymin)

/-- Membership of a point in a cell's closed rectangle. -/
def inCell (c : GridCell) (x y : ℚ) : Prop :=
  c.xmin ≤ x ∧ x ≤ c.xmax ∧ c.ymin ≤ y ∧ y ≤ c.ymax

/-- Membership of a point in a cell's open interior. -/
def inCellInterior (c : GridCell) (x y : ℚ) : Prop :=
  c.xmin < x ∧ x < c.xmax ∧ c.ymin < y ∧ y < c.ymax

/-- Exact-coverage property of the `rows × cols` partition: each cell carries
the formula bounds, the last row/column land exactly on `xmax`/`ymax`, every
cell is a nondegenerate sub-rectangle of the extent, every point of the extent
lies in some cell (no gaps), distinct cells have disjoint interiors (no
overlaps), and the cell areas sum to the extent area. -/
def partitionSpec (e : Extent) (rows cols : ℕ) : Prop :=
  (∀ r c : ℕ,
      (sectionCell e rows cols r c).xmin = e.xmin + c * sectionWidth e cols ∧
      (sectionCell e rows cols r c).xmax = e.xmin + (c + 1) * sectionWidth e cols ∧
      (sectionCell e rows cols r c).ymin = e.ymin + r * sectionHeight e rows ∧
      (sectionCell e rows cols r c).ymax = e.ymin + (r + 1) * sectionHeight e rows) ∧
  ((sectionCell e rows cols (rows - 1) (cols - 1)).xmax = e.xmax ∧
    (sectionCell e rows cols (rows - 1) (cols - 1)).ymax = e.ymax) ∧
  (∀ r < rows, ∀ c < cols,
      e.xmin ≤ (sectionCell e rows cols r c).xmin ∧
      (sectionCell e rows cols r c).xmax ≤ e.xmax ∧
      e.ymin ≤ (sectionCell e rows cols r c).ymin ∧
      (sectionCell e rows cols r c).ymax ≤ e.ymax ∧
      (sectionCell e rows cols r c).xmin < (sectionCell e rows cols r c).xmax ∧
      (sectionCell e rows cols r c).ymin < (sectionCell e rows cols r c).ymax) ∧
  (∀ x y : ℚ, e.xmin ≤ x → x ≤ e.xmax → e.ymin ≤ y → y ≤ e.ymax →
      ∃ r < rows, ∃ c < cols, inCell (sectionCell e rows cols r c) x y) ∧
  (∀ r < rows, ∀ c < cols, ∀ r' < rows, ∀ c' < cols, (r, c) ≠ (r', c') →
      ∀ x y : ℚ, ¬(inCellInterior (sectionCell e rows cols r c) x y ∧
                    inCellInterior (sectionCell e rows cols r' c') x y)) ∧
  (∑ r ∈ Finset.range rows, ∑ c ∈ Finset.range cols,
      cellArea (sectionCell e rows cols r c) = (e.xmax - e.xmin) * (e.ymax - e.ymin))

/-- Clamping property of the fixed-size tile grid: upper bounds never exceed
the layer extent. -/
def tileClampSpec (e : Extent) (ts : ℚ) : Prop :=
  ∀ row col : ℕ, (tileExtent e ts row col).x1 ≤ e.xmax ∧ (tileExtent e ts row col).y1 ≤ e.ymax

/-- One open subinterval cannot lie both strictly right of the `c'`-th left
endpoint and strictly left of the `c`-th right endpoint when `c < c'`. -/
theorem subinterval_interior_disjoint (a w : ℚ) (c c' : ℕ) (hcc : c < c')
    (x : ℚ) (h1 : x < a + (c + 1) * w) (h2 : a + c' * w < x) (hw : 0 < w) : False := by
  have hle : ((c : ℚ) + 1) ≤ (c' : ℚ) := by exact_mod_cast hcc
  nlinarith

/-- C1: for every extent with `xmax > xmin`, `ymax > ymin` and every
`rows, cols ≥ 1`, the partition of `create_geographic_sections` produces cells
spanning `[xmin + c·cw, xmin + (c+1)·cw] × [ymin + r·ch, ymin + (r+1)·ch]`
whose union exactly equals the extent — no gaps, no overlapping interiors,
areas summing to the extent area — with the last row/column upper bounds equal
to `xmax`/`ymax` exactly; and the fixed-size tile grid of
`script_full_extent_tiles.py` clamps every tile upper bound to the extent. -/
theorem partition_exact_cover (e : Extent) (rows cols : ℕ) (ts : ℚ)
    (hrows : 0 < rows) (hcols : 0 < cols)
    (hx : e.xmin < e.xmax) (hy : e.ymin < e.ymax) :
    partitionSpec e rows cols ∧ tileClampSpec e ts := by
  have hcQ : (0 : ℚ) < cols := by exact_mod_cast hcols
  have hrQ : (0 : ℚ) < rows := by exact_mod_cast hrows
  set w : ℚ := sectionWidth e cols with hw
  set h : ℚ := sectionHeight e rows with hh
  have hwpos : 0 < w := by
    rw [hw]; unfold sectionWidth; exact div_pos (by linarith) hcQ
  have hhpos : 0 < h := by
    rw [hh]; unfold sectionHeight; exact div_pos (by linarith) hrQ
  have hcw : (cols : ℚ) * w = e.xmax - e.xmin := by
    rw [hw]; unfold sectionWidth; field_simp
  have hrh : (rows : ℚ) * h = e.ymax - e.ymin := by
    rw [hh]; unfold sectionHeight; field_simp
  refine ⟨⟨?_, ⟨?_, ?_⟩, ?_, ?_, ?_, ?_⟩, ?_⟩
  · intro r c
    exact ⟨rfl, rfl, rfl, rfl⟩
  · show e.xmin + (((cols - 1 : ℕ) : ℚ) + 1) * w = e.xmax
    have hc1 : (((cols - 1 : ℕ) : ℚ) + 1) = (cols : ℚ) := by
      have h1 : (1 : ℕ) ≤ cols := hcols
      push_cast [Nat.cast_sub h1]
      ring
    rw [hc1]
    linarith
  · show e.ymin + (((rows - 1 : ℕ) : ℚ) + 1) * h = e.ymax
    have hr1 : (((rows - 1 : ℕ) : ℚ) + 1) = (rows : ℚ) := by
      have h1 : (1 : ℕ) ≤ rows := hrows
      push_cast [Nat.cast_sub h1]
      ring
    rw [hr1]
    linarith
  · intro r hr c hc
    have hcQ' : ((c : ℚ) + 1) ≤ (cols : ℚ) := by exact_mod_cast hc
    have hrQ' : ((r : ℚ) + 1) ≤ (rows : ℚ) := by exact_mod_cast hr
    have hc0 : (0 : ℚ) ≤ (c : ℚ) := by positivity
    have hr0 : (0 : ℚ) ≤ (r : ℚ) := by positivity
    unfold sectionCell
    dsimp only
    refine ⟨by nlinarith, by nlinarith, by nlinarith, by nlinarith, by nlinarith, by nlinarith⟩
  · intro x y hx1 hx2 hy1 hy2
    obtain ⟨c, hc, hcx1, hcx2⟩ :=
      exists_subinterval e.xmin e.xmax cols hcols hx x hx1 hx2
    obtain ⟨r, hr, hry1, hry2⟩ :=
      exists_subinterval e.ymin e.ymax rows hrows hy y hy1 hy2
    exact ⟨r, hr, c, hc, hcx1, hcx2, hry1, hry2⟩
  · rintro r hr c hc r' hr' c' hc' hne x y ⟨h1, h2⟩
    obtain ⟨h1a, h1b, h1c, h1d⟩ := h1
    obtain ⟨h2a, h2b, h2c, h2d⟩ := h2
    rcases Nat.lt_trichotomy c c' with hcc | hcc | hcc
    · exact subinterval_interior_disjoint e.xmin w c c' hcc x h1b h2a hwpos
    · subst hcc
      rcases Nat.lt_trichotomy r r' with hrr | hrr | hrr
      · exact subinterval_interior_disjoint e.ymin h r r' hrr y h1d h2c hhpos
      · exact hne (by rw [hrr])
      · exact subinterval_interior_disjoint e.ymin h r' r hrr y h2d h1c hhpos
    · exact subinterval_interior_disjoint e.xmin w c' c hcc x h2b h1a hwpos
  · have hcell : ∀ r c : ℕ, cellArea (sectionCell e rows cols r c) = w * h := by
      intro r c
      unfold cellArea sectionCell
      dsimp only
      ring
    calc ∑ r ∈ Finset.range rows, ∑ c ∈ Finset.range cols,
          cellArea (sectionCell e rows cols r c)
        = ∑ _r ∈ Finset.range rows, ∑ _c ∈ Finset.range cols, w * h := by
          refine Finset.sum_congr rfl ?_
          intro r _
          exact Finset.sum_congr rfl fun c _ => hcell r c
      _ = (rows : ℚ) * ((cols : ℚ) * (w * h)) := by
          simp [Finset.sum_const, mul_comm, mul_assoc]
      _ = (e.xmax - e.xmin) * (e.ymax - e.ymin) := by
          nlinarith [hcw, hrh]
  · intro row col
    exact ⟨min_le_right _ _, min_le_right _ _⟩

/-- Witness for C1 at Scenario A: extent `(0,0,1000,1000)`, `rows = cols = 2`,
tile size 500. -/
theorem partition_exact_cover_witness :
    (0 : ℕ) < 2 ∧ (0 : ℚ) < 1000 ∧
      (partitionSpec ⟨0, 0, 1000, 1000⟩ 2 2 ∧ tileClampSpec ⟨0, 0, 1000, 1000⟩ 500) :=
  ⟨by decide, by norm_num,
    partition_exact_cover ⟨0, 0, 1000, 1000⟩ 2 2 500 (by decide) (by decide)
      (by norm_num) (by norm_num)⟩

/-- Conjunction asserted by claim C6: the layout heuristic's four cases, the
loop being a row-major truncation, and exact trimming to `n` cells whenever
the chosen grid has more cells than requested. -/
def layoutTrimSpec (n : ℕ) : Prop :=
  (n ≤ 4 → gridLayout n = (2, 2)) ∧
  (4 < n → n ≤ 6 → gridLayout n = (3, 2)) ∧
  (6 < n → n ≤ 9 → gridLayout n = (3, 3)) ∧
  (9 < n → gridLayout n = (4, 3)) ∧
  (∀ e : Extent, consideredCells e n =
      (partitionCells e (gridLayout n).2 (gridLayout n).1).take (sectionsToCreate n)) ∧
  ((gridLayout n).1 * (gridLayout n).2 > n →
      ∀ e : Extent, (consideredCells e n).length = n)

/-- C6: the grid layout is `2×2` for `N ≤ 4`, `3×2` for `4 < N ≤ 6`, `3×3` for
`6 < N ≤ 9`, `4×3` otherwise; the generation loop enumerates cells in
row-major order, and when `cols·rows` exceeds `N` the trailing cells are
trimmed so exactly `N` cells are produced. -/
theorem grid_layout_and_trim (n : ℕ) (_hn : 1 ≤ n) : layoutTrimSpec n := by
  unfold layoutTrimSpec
  refine ⟨?_, ?_, ?_, ?_, ?_, ?_⟩
  · intro h4
    simp [gridLayout, h4]
  · intro h4 h6
    have h4' : ¬ n ≤ 4 := by omega
    simp [gridLayout, h4', h6]
  · intro h6 h9
    have h4' : ¬ n ≤ 4 := by omega
    have h6' : ¬ n ≤ 6 := by omega
    simp [gridLayout, h4', h6', h9]
  · intro h9
    have h4' : ¬ n ≤ 4 := by omega
    have h6' : ¬ n ≤ 6 := by omega
    have h9' : ¬ n ≤ 9 := by omega
    simp [gridLayout, h4', h6', h9']
  · intro e
    exact consideredCells_eq_take e n
  · intro hgt e
    rw [consideredCells_eq_take, List.length_take, length_partitionCells]
    have hs : sectionsToCreate n = n := by
      unfold sectionsToCreate
      rw [if_pos hgt]
    rw [hs]
    have hlt : n < (gridLayout n).2 * (gridLayout n).1 := by
      rw [Nat.mul_comm]
      exact hgt
    exact Nat.min_eq_left (Nat.le_of_lt hlt)

/-- Witness for C6 at `n = 5` (the repository's recommended 5-6 sections). -/
theorem grid_layout_and_trim_witness : 1 ≤ 5 ∧ layoutTrimSpec 5 :=
  ⟨by decide, grid_layout_and_trim 5 (by decide)⟩

/-! ### Claim C5 — Coverage Filter -/

/-- The rational `1/2`, written as a raw numerator/denominator pair so that
kernel evaluation never has to normalize a quotient. -/
def halfSqkm : ℚ := ⟨1, 2, by decide, by decide⟩

/-- Intersection-area oracle for Scenario D on the `4×3` grid chosen for
`num_sections = 10`: among the 10 considered cells, the first three
(`row 0, col 0..2`) have zero intersection, the next two (`row 0 col 3` and
`row 1 col 0`) have nonzero area below the 1 km² threshold, and the remaining
five have area 2 km². -/
def scenarioDArea (c : GridCell) : ℚ :=
  if c.row = 0 ∧ c.col ≤ 2 then 0
  else if c.row = 0 ∨ (c.row = 1 ∧ c.col = 0) then halfSqkm
  else 2

/-- Conjunction asserted by the amended claim C5: every emitted section
exceeds the threshold and carries the oracle's area, a considered cell at or
below the threshold never appears in the output, and in Scenario D exactly 5
of the 10 considered cells (3 zero-intersection, 2 below-threshold) are
returned. -/
def coverageFilterSpec : Prop :=
  (∀ (e : Extent) (n : ℕ) (areaOf : GridCell → ℚ) (s : SectionInfo),
      s ∈ createGeographicSections e n areaOf →
        1 < s.areaSqkm ∧ s.areaSqkm = areaOf s.cell) ∧
  (∀ (e : Extent) (n : ℕ) (areaOf : GridCell → ℚ) (c : GridCell),
      c ∈ consideredCells e n → areaOf c ≤ 1 →
        ∀ s ∈ createGeographicSections e n areaOf, s.cell ≠ c) ∧
  ((consideredCells ⟨0, 0, 100, 100⟩ 10).length = 10 ∧
    ((consideredCells ⟨0, 0, 100, 100⟩ 10).filter (fun c => scenarioDArea c = 0)).length = 3 ∧
    ((consideredCells ⟨0, 0, 100, 100⟩ 10).filter
        (fun c => 0 < scenarioDArea c ∧ scenarioDArea c ≤ 1)).length = 2 ∧
    (createGeographicSections ⟨0, 0, 100, 100⟩ 10 scenarioDArea).length = 5)

/-- C5 (amended): the Coverage Filter keeps exactly the cells whose
intersection area exceeds the threshold; zero-intersection and nonzero
below-threshold cells are both dropped (without any recorded rejection
reason); given 10 cells of which 3 have zero intersection and 2 are below
threshold, exactly 5 cells are returned. -/
theorem coverage_filter_keeps_above_threshold : coverageFilterSpec := by
  unfold coverageFilterSpec
  refine ⟨?_, ?_, by decide⟩
  · intro e n areaOf s hs
    unfold createGeographicSections at hs
    simp only [List.mem_map, List.mem_filter] at hs
    obtain ⟨c, ⟨_, hgt⟩, rfl⟩ := hs
    exact ⟨by simpa using hgt, rfl⟩
  · intro e n areaOf c _hc hle s hs hcell
    unfold createGeographicSections at hs
    simp only [List.mem_map, List.mem_filter] at hs
    obtain ⟨c', ⟨_, hgt⟩, rfl⟩ := hs
    have h1 : (1 : ℚ) < areaOf c' := by simpa using hgt
    have h2 : c' = c := hcell
    rw [h2] at h1
    linarith

/-- Two intersection-area oracles that differ only on the dropped cell
`(row 0, col 0)`: zero intersection versus nonzero below-threshold. -/
def areaZeroVariant (c : GridCell) : ℚ :=
  if c.row = 0 ∧ c.col = 0 then 0 else 2

/-- Companion oracle for `areaZeroVariant` with a below-threshold cell. -/
def areaHalfVariant (c : GridCell) : ℚ :=
  if c.row = 0 ∧ c.col = 0 then halfSqkm else 2

/-- Counterexample to C5 as stated: the filter's entire output is identical
whether the dropped cell has zero intersection area or a nonzero
below-threshold one, so no distinct `outside` / `below-threshold` rejection
reasons are recorded anywhere. -/
theorem coverage_filter_reasons_counterexample :
    areaZeroVariant (sectionCell ⟨0, 0, 100, 100⟩ 3 4 0 0) = 0 ∧
    areaHalfVariant (sectionCell ⟨0, 0, 100, 100⟩ 3 4 0 0) = halfSqkm ∧
    (0 : ℚ) < halfSqkm ∧ halfSqkm ≤ 1 ∧
    createGeographicSections ⟨0, 0, 100, 100⟩ 10 areaZeroVariant =
      createGeographicSections ⟨0, 0, 100, 100⟩ 10 areaHalfVariant := by
  refine ⟨by decide, by decide, by decide, by decide, ?_⟩
  unfold createGeographicSections
  rw [List.filter_congr (by decide :
    ∀ c ∈ consideredCells ⟨0, 0, 100, 100⟩ 10,
      (decide (1 < areaZeroVariant c)) = (decide (1 < areaHalfVariant c)))]
  refine List.map_congr_left ?_
  intro c hc
  have hval : areaZeroVariant c = areaHalfVariant c := by
    revert hc
    have : ∀ c ∈ (consideredCells ⟨0, 0, 100, 100⟩ 10).filter
        (fun c => decide (1 < areaHalfVariant c)),
        areaZeroVariant c = areaHalfVariant c := by decide
    exact this c
  rw [SectionInfo.mk.injEq]
  exact ⟨rfl, hval⟩

/-! ### Geometry provider interface

The samplers delegate all geometry to arcpy: `intersect(...)` (which may
return a null geometry, modelled as `none`), `.area`, `.contains(...)` and
`.overlaps(...)`.  These are collaborator calls, so they enter the embedding
as an abstract operations record; witnesses instantiate it with a concrete
rectangle geometry below. -/

structure GeomOps (P : Type) where
  intersect : P → P → Option P
  area : P → ℚ
  contains : P → P → Bool
  overlaps : P → P → Bool

/-- One accepted sample-polygon row as inserted by the cursor
(`SHAPE@`, `POLYGON_ID`, `AREA_M2`; the constant per-run `SECTION` text and
the id-derived `LAND_COVER` text are omitted). -/
structure SampleRow (P : Type) where
  geom : P
  polyId : ℕ
  areaM2 : ℚ
deriving DecidableEq

/-- Mutable state of a sampling `while` loop: the `successful_polygons` and
`attempts` counters plus the rows inserted so far. -/
structure SampleState (P : Type) where
  successful : ℕ
  attempts : ℕ
  rows : List (SampleRow P)
deriving DecidableEq

/-- The shared `while successful < n and attempts < max_attempts` loop shape;
`fuel` is `max_attempts - attempts`, which decreases by exactly one per
iteration because every iteration runs `attempts += 1`. -/
def sampleLoop {P : Type} (step : SampleState P → SampleState P) (n : ℕ) :
    ℕ → SampleState P → SampleState P
  | 0, s => s
  | fuel + 1, s => if s.successful < n then sampleLoop step n fuel (step s) else s

/-! ### Mask sampler — `create_random_polygons_in_sections.py` lines 120-230 -/

/-- One iteration of the mask sampling loop (lines 177-219).  The candidate
polygon drawn at this attempt — a random center inside the buffered overlap
extent fed through `create_random_irregular_polygon` — is the oracle value
`cand s.attempts`; `hasData` is the `check_polygon_in_imagery_data` oracle
(that helper catches every exception and returns `False`, so it is a total
boolean). -/
def maskStep {P : Type} (G : GeomOps P) (overlap : P) (cand : ℕ → P)
    (hasData : P → Bool) (s : SampleState P) : SampleState P :=
  let c := cand s.attempts
  let s' : SampleState P := { s with attempts := s.attempts + 1 }
  if G.contains overlap c || G.overlaps overlap c then
    match G.intersect overlap c with
    | some g =>
        if 0 < G.area g then
          if hasData g then
            { s' with successful := s'.successful + 1
                      rows := s'.rows ++ [⟨g, s'.successful + 1, G.area g⟩] }
          else s'
        else s'
    | none => s'
  else s'

/-- The mask sampling loop with its attempt budget
`max_attempts = num_random_polygons * 20` (line 171). -/
def runMaskSampling {P : Type} (G : GeomOps P) (overlap : P) (cand : ℕ → P)
    (hasData : P → Bool) (n : ℕ) : SampleState P :=
  sampleLoop (maskStep G overlap cand hasData) n (n * 20) ⟨0, 0, []⟩

/-- Outcome of processing one mask shapefile: `raised` stands for an uncaught
exception escaping the per-mask block (the embedding shows it is never
produced), the two `skipped…` outcomes are the warning-and-continue branches
of lines 229-232, and `sampled` carries the loop result. -/
inductive SectionOutcome (P : Type) where
  | raised
  | skippedNoPolygons
  | skippedNoOverlap
  | sampled (result : SampleState P)
deriving DecidableEq

/-- Per-mask processing, lines 126-230: read the mask polygons, take the
first, intersect with the imagery boundary, and only sample when the overlap
exists and has a positive area; otherwise print a warning and skip. -/
def processMask {P : Type} (G : GeomOps P) (imagery : P) (maskPolys : List P)
    (cand : ℕ → P) (hasData : P → Bool) (n : ℕ) : SectionOutcome P :=
  match maskPolys with
  | [] => .skippedNoPolygons
  | m :: _ =>
      match G.intersect imagery m with
      | none => .skippedNoOverlap
      | some overlap =>
          if 0 < G.area overlap then
            .sampled (runMaskSampling G overlap cand hasData n)
          else .skippedNoOverlap

/-! ### Irregular-section sampler —
`create_random_polygons_in_irregular_sections.py` lines 121-175 -/

/-- One iteration of the irregular-section loop (lines 128-162): a candidate
fully contained in the section is kept as-is, one that overlaps is clipped by
`intersect`, anything else is skipped (`continue`); the resulting polygon is
inserted only when it is non-null with positive area.  There is no imagery
no-data check in this script. -/
def irregularStep {P : Type} (G : GeomOps P) (sec : P) (cand : ℕ → P)
    (s : SampleState P) : SampleState P :=
  let c := cand s.attempts
  let s' : SampleState P := { s with attempts := s.attempts + 1 }
  let finalPoly : Option P :=
    if G.contains sec c then some c
    else if G.overlaps sec c then G.intersect sec c
    else none
  match finalPoly with
  | some g =>
      if 0 < G.area g then
        { s' with successful := s'.successful + 1
                  rows := s'.rows ++ [⟨g, s'.successful + 1, G.area g⟩] }
      else s'
  | none => s'

/-- The irregular-section loop with its budget
`max_attempts = num_random_polygons * 15` (line 125). -/
def runIrregularSampling {P : Type} (G : GeomOps P) (sec : P) (cand : ℕ → P)
    (n : ℕ) : SampleState P :=
  sampleLoop (irregularStep G sec cand) n (n * 15) ⟨0, 0, []⟩

/-! ### Shared loop lemmas -/

theorem sampleLoop_attempts_le {P : Type} (step : SampleState P → SampleState P)
    (hstep : ∀ s, (step s).attempts = s.attempts + 1) (n : ℕ) :
    ∀ (fuel : ℕ) (s : SampleState P),
      (sampleLoop step n fuel s).attempts ≤ s.attempts + fuel := by
  intro fuel
  induction fuel with
  | zero => intro s; simp [sampleLoop]
  | succ f ih =>
      intro s
      by_cases h : s.successful < n
      · calc (sampleLoop step n (f + 1) s).attempts
            = (sampleLoop step n f (step s)).attempts := by simp [sampleLoop, h]
          _ ≤ (step s).attempts + f := ih (step s)
          _ = s.attempts + 1 + f := by rw [hstep]
          _ ≤ s.attempts + (f + 1) := by omega
      · simp [sampleLoop, h]

theorem sampleLoop_inv {P : Type} (step : SampleState P → SampleState P)
    (n : ℕ) (Inv : SampleState P → Prop)
    (hstep : ∀ s, s.successful < n → Inv s → Inv (step s)) :
    ∀ (fuel : ℕ) (s : SampleState P), Inv s → Inv (sampleLoop step n fuel s) := by
  intro fuel
  induction fuel with
  | zero => intro s hs; simpa [sampleLoop] using hs
  | succ f ih =>
      intro s hs
      by_cases h : s.successful < n
      · have : sampleLoop step n (f + 1) s = sampleLoop step n f (step s) := by
          simp [sampleLoop, h]
        rw [this]
        exact ih (step s) (hstep s h hs)
      · simpa [sampleLoop, h] using hs

theorem sampleLoop_successful_le {P : Type} (step : SampleState P → SampleState P)
    (n : ℕ) (hstep : ∀ s, (step s).successful ≤ s.successful + 1) :
    ∀ (fuel : ℕ) (s : SampleState P), s.successful ≤ n →
      (sampleLoop step n fuel s).successful ≤ n := by
  refine sampleLoop_inv step n (fun s => s.successful ≤ n) ?_
  intro s hlt _
  have := hstep s
  omega

/-- Once the target is reached the loop is a no-op (used to shortcut witness
evaluations). -/
theorem sampleLoop_of_done {P : Type} (step : SampleState P → SampleState P)
    (n : ℕ) (fuel : ℕ) (s : SampleState P) (h : ¬ s.successful < n) :
    sampleLoop step n fuel s = s := by
  cases fuel with
  | zero => rfl
  | succ f => simp [sampleLoop, h]

/-! ### Stratified generator — `generate_training_polygons_optimized.py` -/

inductive Strategy where
  | gridBased
  | random
deriving DecidableEq

/-- One entry of `valid_polygons` (lines 118-125 and 159-166): strategy tag,
center coordinates and size.  The `poly_id` text (`grid_%03d` / `rand_%03d`)
is derived from the entry's position and strategy, and the hexagon vertex
coordinates of `create_hexagon_polygon` are trigonometric functions of the
center; neither carries information beyond these fields, so they are not
replicated here. -/
structure TrainPoly where
  strategy : Strategy
  centerX : ℚ
  centerY : ℚ
  sizeM : ℚ
deriving DecidableEq

/-- Grid-based share of the target, line 65: `int(num_polygons * 0.7)`. -/
def gridTargetOf (numPolygons : ℕ) : ℕ := Int.toNat ⌊(numPolygons : ℚ) * (7 / 10)⌋

/-- Random share, line 66: `num_polygons - grid_polygons`. -/
def randomTargetOf (numPolygons : ℕ) : ℕ := numPolygons - gridTargetOf numPolygons

/-- Python `range(start, stop, step)` for a positive step. -/
def pyRange (start stop step : ℕ) : List ℕ :=
  (List.range ((stop - start + step - 1) / step)).map (fun k => start + k * step)

/-- Raster width in pixels, line 58: `int((XMax - XMin) / cell_size_x)`. -/
def rasterWidth (e : Extent) (cellX : ℚ) : ℕ := Int.toNat ⌊(e.xmax - e.xmin) / cellX⌋

/-- Raster height in pixels, line 59. -/
def rasterHeight (e : Extent) (cellY : ℚ) : ℕ := Int.toNat ⌊(e.ymax - e.ymin) / cellY⌋

/-- Polygon size in cells, line 89. -/
def polygonSizeCells (polySize cellX cellY : ℚ) : ℚ := polySize / min cellX cellY

/-- Edge-avoidance buffer, line 90: `int(polygon_size_cells / 2) + 5`. -/
def bufferCells (polySize cellX cellY : ℚ) : ℕ :=
  Int.toNat ⌊polygonSizeCells polySize cellX cellY / 2⌋ + 5

/-- Sub-grid spacing, lines 94-95: `width // int(math.sqrt(grid_polygons) + 1)`;
for a nonnegative integer argument `int(math.sqrt(g) + 1)` is `⌊√g⌋ + 1`,
i.e. `Nat.sqrt g + 1`. -/
def gridSpacing (extentPixels gridPolygons : ℕ) : ℕ :=
  extentPixels / (Nat.sqrt gridPolygons + 1)

/-- Row-major sub-grid positions `(grid_y, grid_x)` of the two nested `for`
loops at lines 98-99. -/
def gridPositions (wdt hgt buf sx sy : ℕ) : List (ℕ × ℕ) :=
  (pyRange buf (hgt - buf) sy).flatMap
    (fun gy => (pyRange buf (wdt - buf) sx).map (fun gx => (gy, gx)))

/-- Jitter clamp of lines 107-108: `max(buffer, min(extent - buffer, g + j))`
over the integers (the jitter can be negative). -/
def clampJitter (lo hi v : ℤ) : ℤ := max lo (min hi v)

/-- Grid-based pass, lines 97-131: walk the sub-grid positions in row-major
order, jitter each (oracle `jit`, one `randint` pair per visited position),
clamp, convert to map coordinates and keep the first `target` positions that
the `is_valid_location` oracle accepts.  The `break` once
`grid_count >= grid_polygons` stops all further additions, which is the
`target ≤ count` early return. -/
def gridPassGo (e : Extent) (cellX cellY polySize : ℚ) (target wdt hgt buf : ℕ)
    (jit : ℕ → ℤ × ℤ) (isValid : ℚ × ℚ → Bool) :
    List (ℕ × ℕ) → ℕ → ℕ → List TrainPoly → List TrainPoly
  | [], _, _, acc => acc
  | gp :: rest, idx, count, acc =>
      if target ≤ count then acc
      else
        let fx : ℤ := clampJitter (buf : ℤ) ((wdt : ℤ) - buf) ((gp.2 : ℤ) + (jit idx).1)
        let fy : ℤ := clampJitter (buf : ℤ) ((hgt : ℤ) - buf) ((gp.1 : ℤ) + (jit idx).2)
        let mapX : ℚ := e.xmin + (fx : ℚ) * cellX
        let mapY : ℚ := e.ymin + (fy : ℚ) * cellY
        if isValid (mapX, mapY) then
          gridPassGo e cellX cellY polySize target wdt hgt buf jit isValid rest (idx + 1)
            (count + 1) (acc ++ [⟨.gridBased, mapX, mapY, polySize⟩])
        else
          gridPassGo e cellX cellY polySize target wdt hgt buf jit isValid rest (idx + 1)
            count acc

def gridPass (e : Extent) (cellX cellY polySize : ℚ) (target wdt hgt buf sx sy : ℕ)
    (jit : ℕ → ℤ × ℤ) (isValid : ℚ × ℚ → Bool) : List TrainPoly :=
  gridPassGo e cellX cellY polySize target wdt hgt buf jit isValid
    (gridPositions wdt hgt buf sx sy) 0 0 []

/-- Squared center-to-center distance.  The source compares
`math.sqrt(dx**2 + dy**2) < min_distance` (lines 151-152); with
`min_distance ≥ 0` this is equivalent to the squared comparison used here,
which keeps the embedding inside ℚ. -/
def distSq (x1 y1 x2 y2 : ℚ) : ℚ := (x1 - x2) ^ 2 + (y1 - y2) ^ 2

/-- Spacing scan of lines 147-154: `too_close` iff some existing polygon's
center is strictly closer than `min_distance`. -/
def tooCloseB (existing : List TrainPoly) (x y minD : ℚ) : Bool :=
  existing.any (fun ex => decide (distSq x y ex.centerX ex.centerY < minD ^ 2))

/-- State of the random pass: `attempts`, `random_count` and the shared
`valid_polygons` list (which already holds the grid-based entries). -/
structure RandState where
  attempts : ℕ
  count : ℕ
  polys : List TrainPoly
deriving DecidableEq

/-- One iteration of the random pass, lines 139-167: draw a random position
inside the buffered extent (oracle `rands`, values in `[0,1]`), reject when
too close to any previously accepted polygon or invalid, else append a
`random`-strategy entry. -/
def randomStep (e : Extent) (cellX cellY polySize : ℚ) (wdt hgt buf : ℕ)
    (rands : ℕ → ℚ × ℚ) (isValid : ℚ × ℚ → Bool) (s : RandState) : RandState :=
  let r := rands s.attempts
  let x : ℚ := e.xmin + ((buf : ℚ) + r.1 * ((wdt : ℚ) - 2 * buf)) * cellX
  let y : ℚ := e.ymin + ((buf : ℚ) + r.2 * ((hgt : ℚ) - 2 * buf)) * cellY
  let minD : ℚ := polySize * 2
  let s' : RandState := { s with attempts := s.attempts + 1 }
  if (!tooCloseB s.polys x y minD) && isValid (x, y) then
    { s' with count := s'.count + 1, polys := s'.polys ++ [⟨.random, x, y, polySize⟩] }
  else s'

/-- The `while random_count < random_polygons and attempts < max_attempts`
loop; `fuel` is the remaining attempt budget. -/
def randomLoop (e : Extent) (cellX cellY polySize : ℚ) (wdt hgt buf : ℕ)
    (rands : ℕ → ℚ × ℚ) (isValid : ℚ × ℚ → Bool) (target : ℕ) :
    ℕ → RandState → RandState
  | 0, s => s
  | fuel + 1, s =>
      if s.count < target then
        randomLoop e cellX cellY polySize wdt hgt buf rands isValid target fuel
          (randomStep e cellX cellY polySize wdt hgt buf rands isValid s)
      else s

/-- The random pass with its budget `max_attempts = random_polygons * 5`
(line 137), starting from the grid-based entries. -/
def runRandomPass (e : Extent) (cellX cellY polySize : ℚ) (wdt hgt buf : ℕ)
    (rands : ℕ → ℚ × ℚ) (isValid : ℚ × ℚ → Bool) (target : ℕ)
    (init : List TrainPoly) : RandState :=
  randomLoop e cellX cellY polySize wdt hgt buf rands isValid target (target * 5)
    ⟨0, 0, init⟩

/-- Whole `generate_stratified_polygons` pipeline (geometry-free core):
derived raster quantities, the grid-based pass, then the random pass over the
shared `valid_polygons` list. -/
def generateStratifiedPolygons (e : Extent) (cellX cellY polySize : ℚ) (n : ℕ)
    (jit : ℕ → ℤ × ℤ) (rands : ℕ → ℚ × ℚ) (isValid : ℚ × ℚ → Bool) : RandState :=
  let wdt := rasterWidth e cellX
  let hgt := rasterHeight e cellY
  let buf := bufferCells polySize cellX cellY
  let g := gridTargetOf n
  let sx := gridSpacing wdt g
  let sy := gridSpacing hgt g
  let gridPolys := gridPass e cellX cellY polySize g wdt hgt buf sx sy jit isValid
  runRandomPass e cellX cellY polySize wdt hgt buf rands isValid (randomTargetOf n) gridPolys

/-- Accepted polygon count reported at line 170 / returned at line 199. -/
def acceptedCount (s : RandState) : ℕ := s.polys.length

/-- Shortfall against the target (reported as the `Only created x/n` warning
in the sampling scripts; zero when the target is met). -/
def shortfallOf (n : ℕ) (s : RandState) : ℕ := n - acceptedCount s

/-! ### Concrete rectangle geometry used to instantiate the oracle interfaces -/

structure Box where
  x0 : ℚ
  y0 : ℚ
  x1 : ℚ
  y1 : ℚ
deriving DecidableEq

/-- Point set denoted by a box (empty when degenerate). -/
def Box.toSet (b : Box) : Set (ℚ × ℚ) :=
  {p | b.x0 ≤ p.1 ∧ p.1 ≤ b.x1 ∧ b.y0 ≤ p.2 ∧ p.2 ≤ b.y1}

def boxInter (a b : Box) : Box :=
  ⟨max a.x0 b.x0, max a.y0 b.y0, min a.x1 b.x1, min a.y1 b.y1⟩

def Box.area (b : Box) : ℚ :=
  if b.x0 < b.x1 ∧ b.y0 < b.y1 then (b.x1 - b.x0) * (b.y1 - b.y0) else 0

def boxContains (a b : Box) : Bool :=
  decide (a.x0 ≤ b.x0 ∧ b.x1 ≤ a.x1 ∧ a.y0 ≤ b.y0 ∧ b.y1 ≤ a.y1)

def boxOverlaps (a b : Box) : Bool :=
  decide (max a.x0 b.x0 < min a.x1 b.x1 ∧ max a.y0 b.y0 < min a.y1 b.y1)

/-- Rectangle instantiation of the geometry provider. -/
def boxOps : GeomOps Box :=
  { intersect := fun a b => some (boxInter a b)
    area := Box.area
    contains := boxContains
    overlaps := boxOverlaps }

theorem boxContains_subset {a b : Box} (h : boxContains a b = true) :
    b.toSet ⊆ a.toSet := by
  unfold boxContains at h
  rw [decide_eq_true_iff] at h
  obtain ⟨h1, h2, h3, h4⟩ := h
  intro p hp
  obtain ⟨hp1, hp2, hp3, hp4⟩ := hp
  exact ⟨by linarith, by linarith, by linarith, by linarith⟩

theorem boxInter_toSet (a b : Box) :
    (boxInter a b).toSet = a.toSet ∩ b.toSet := by
  ext p
  unfold boxInter Box.toSet
  simp only [Set.mem_setOf_eq, Set.mem_inter_iff, max_le_iff, le_min_iff]
  constructor
  · rintro ⟨⟨h1, h2⟩, ⟨h3, h4⟩, ⟨h5, h6⟩, h7, h8⟩
    exact ⟨⟨h1, h3, h5, h7⟩, h2, h4, h6, h8⟩
  · rintro ⟨⟨h1, h2, h3, h4⟩, h5, h6, h7, h8⟩
    exact ⟨⟨h1, h5⟩, ⟨h2, h6⟩, ⟨h3, h7⟩, h4, h8⟩

theorem boxOps_intersect_subset {a b g : Box} (h : boxOps.intersect a b = some g) :
    g.toSet ⊆ a.toSet := by
  have hg : g = boxInter a b := by
    simpa [boxOps] using h.symm
  subst hg
  rw [boxInter_toSet]
  exact Set.inter_subset_left

/-! ### Claim C3 — bounded attempts -/

theorem maskStep_attempts {P : Type} (G : GeomOps P) (overlap : P) (cand : ℕ → P)
    (hasData : P → Bool) (s : SampleState P) :
    (maskStep G overlap cand hasData s).attempts = s.attempts + 1 := by
  unfold maskStep
  by_cases h1 : (G.contains overlap (cand s.attempts) ||
      G.overlaps overlap (cand s.attempts)) = true
  · simp only [h1, if_true]
    cases hI : G.intersect overlap (cand s.attempts) with
    | none => rfl
    | some g =>
        by_cases h2 : 0 < G.area g
        · by_cases h3 : hasData g = true <;> simp [h2, h3]
        · simp [h2]
  · simp [h1]

theorem maskStep_successful_le {P : Type} (G : GeomOps P) (overlap : P)
    (cand : ℕ → P) (hasData : P → Bool) (s : SampleState P) :
    (maskStep G overlap cand hasData s).successful ≤ s.successful + 1 := by
  unfold maskStep
  by_cases h1 : (G.contains overlap (cand s.attempts) ||
      G.overlaps overlap (cand s.attempts)) = true
  · simp only [h1, if_true]
    cases hI : G.intersect overlap (cand s.attempts) with
    | none => simp
    | some g =>
        by_cases h2 : 0 < G.area g
        · by_cases h3 : hasData g = true <;> simp [h2, h3]
        · simp [h2]
  · simp [h1]

theorem randomLoop_attempts_le (e : Extent) (cellX cellY polySize : ℚ)
    (wdt hgt buf : ℕ) (rands : ℕ → ℚ × ℚ) (isValid : ℚ × ℚ → Bool) (target : ℕ) :
    ∀ (fuel : ℕ) (s : RandState),
      (randomLoop e cellX cellY polySize wdt hgt buf rands isValid target fuel s).attempts ≤
        s.attempts + fuel := by
  intro fuel
  induction fuel with
  | zero => intro s; simp [randomLoop]
  | succ f ih =>
      intro s
      by_cases h : s.count < target
      · have hstep : (randomStep e cellX cellY polySize wdt hgt buf rands isValid s).attempts
            = s.attempts + 1 := by
          unfold randomStep
          by_cases hc : ((!tooCloseB s.polys
              (e.xmin + ((buf : ℚ) + (rands s.attempts).1 * ((wdt : ℚ) - 2 * buf)) * cellX)
              (e.ymin + ((buf : ℚ) + (rands s.attempts).2 * ((hgt : ℚ) - 2 * buf)) * cellY)
              (polySize * 2)) && isValid
              (e.xmin + ((buf : ℚ) + (rands s.attempts).1 * ((wdt : ℚ) - 2 * buf)) * cellX,
               e.ymin + ((buf : ℚ) + (rands s.attempts).2 * ((hgt : ℚ) - 2 * buf)) * cellY)) =
              true <;>
            simp [hc]
        calc (randomLoop e cellX cellY polySize wdt hgt buf rands isValid target (f + 1) s).attempts
            = (randomLoop e cellX cellY polySize wdt hgt buf rands isValid target f
                (randomStep e cellX cellY polySize wdt hgt buf rands isValid s)).attempts := by
              simp [randomLoop, h]
          _ ≤ (randomStep e cellX cellY polySize wdt hgt buf rands isValid s).attempts + f := ih _
          _ = s.attempts + 1 + f := by rw [hstep]
          _ ≤ s.attempts + (f + 1) := by omega
      · simp [randomLoop, h]

/-- C3: the mask sampling loop evaluates at most `n * 20` candidates (the
loop is a total function of its finite attempt budget, so it terminates), it
never accepts more than `n` polygons, a shortfall still yields a normal
`sampled` result through `processMask`, and the optimized generator's random
pass stays within its `random_polygons * 5 ≤ n * 20` budget. -/
theorem sample_bounded_attempts {P : Type} (G : GeomOps P) (imagery m ov : P)
    (rest : List P) (cand : ℕ → P) (hasData : P → Bool) (n : ℕ)
    (e : Extent) (cellX cellY polySize : ℚ) (wdt hgt buf : ℕ)
    (rands : ℕ → ℚ × ℚ) (isValid : ℚ × ℚ → Bool) (init : List TrainPoly)
    (hI : G.intersect imagery m = some ov) (hA : 0 < G.area ov) :
    (runMaskSampling G ov cand hasData n).attempts ≤ n * 20 ∧
    (runMaskSampling G ov cand hasData n).successful ≤ n ∧
    processMask G imagery (m :: rest) cand hasData n =
      SectionOutcome.sampled (runMaskSampling G ov cand hasData n) ∧
    (runRandomPass e cellX cellY polySize wdt hgt buf rands isValid
        (randomTargetOf n) init).attempts ≤ randomTargetOf n * 5 ∧
    randomTargetOf n * 5 ≤ n * 20 := by
  refine ⟨?_, ?_, ?_, ?_, ?_⟩
  · have := sampleLoop_attempts_le (maskStep G ov cand hasData)
      (maskStep_attempts G ov cand hasData) n (n * 20) ⟨0, 0, []⟩
    simpa [runMaskSampling] using this
  · have := sampleLoop_successful_le (maskStep G ov cand hasData) n
      (maskStep_successful_le G ov cand hasData) (n * 20) ⟨0, 0, []⟩ (by simp)
    simpa [runMaskSampling] using this
  · simp [processMask, hI, hA]
  · have := randomLoop_attempts_le e cellX cellY polySize wdt hgt buf rands isValid
      (randomTargetOf n) (randomTargetOf n * 5) ⟨0, 0, init⟩
    simpa [runRandomPass] using this
  · have h1 : randomTargetOf n ≤ n := Nat.sub_le _ _
    omega

/-- Witness for C3: a concrete rectangle configuration with a nonempty
overlap and target count 3. -/
theorem sample_bounded_attempts_witness :
    boxOps.intersect ⟨0, 0, 10, 10⟩ ⟨0, 0, 10, 10⟩ =
      some (boxInter ⟨0, 0, 10, 10⟩ ⟨0, 0, 10, 10⟩) ∧
    (0 : ℚ) < boxOps.area (boxInter ⟨0, 0, 10, 10⟩ ⟨0, 0, 10, 10⟩) ∧
    ((runMaskSampling boxOps (boxInter ⟨0, 0, 10, 10⟩ ⟨0, 0, 10, 10⟩)
        (fun _ => ⟨1, 1, 2, 2⟩) (fun _ => true) 3).attempts ≤ 3 * 20 ∧
      (runMaskSampling boxOps (boxInter ⟨0, 0, 10, 10⟩ ⟨0, 0, 10, 10⟩)
          (fun _ => ⟨1, 1, 2, 2⟩) (fun _ => true) 3).successful ≤ 3 ∧
      processMask boxOps ⟨0, 0, 10, 10⟩ [⟨0, 0, 10, 10⟩]
          (fun _ => ⟨1, 1, 2, 2⟩) (fun _ => true) 3 =
        SectionOutcome.sampled (runMaskSampling boxOps
          (boxInter ⟨0, 0, 10, 10⟩ ⟨0, 0, 10, 10⟩)
          (fun _ => ⟨1, 1, 2, 2⟩) (fun _ => true) 3) ∧
      (runRandomPass ⟨0, 0, 100, 100⟩ 1 1 1 100 100 0 (fun _ => (0, 0))
          (fun _ => true) (randomTargetOf 3) []).attempts ≤ randomTargetOf 3 * 5 ∧
      randomTargetOf 3 * 5 ≤ 3 * 20) :=
  ⟨rfl, by norm_num [boxOps, Box.area, boxInter],
    sample_bounded_attempts boxOps ⟨0, 0, 10, 10⟩ ⟨0, 0, 10, 10⟩
      (boxInter ⟨0, 0, 10, 10⟩ ⟨0, 0, 10, 10⟩) [] (fun _ => ⟨1, 1, 2, 2⟩)
      (fun _ => true) 3 ⟨0, 0, 100, 100⟩ 1 1 1 100 100 0 (fun _ => (0, 0))
      (fun _ => true) [] rfl (by norm_num [boxOps, Box.area, boxInter])⟩

/-! ### Claim C10 — persisted rows: ids, areas -/

/-- Well-formedness of the inserted rows: one row per acceptance, ids are the
consecutive integers `1..successful` in insertion order, and each row stores
`AREA_M2` equal to the (positive) area of its stored geometry. -/
def rowsWellFormed {P : Type} (G : GeomOps P) (s : SampleState P) : Prop :=
  s.rows.length = s.successful ∧
  s.rows.map (fun r => r.polyId) = List.range' 1 s.successful ∧
  ∀ r ∈ s.rows, r.areaM2 = G.area r.geom ∧ 0 < r.areaM2

theorem rowsWellFormed_append {P : Type} (G : GeomOps P) (s : SampleState P)
    (g : P) (hwf : rowsWellFormed G s) (hpos : 0 < G.area g) :
    rowsWellFormed G
      { successful := s.successful + 1, attempts := s.attempts + 1,
        rows := s.rows ++
          [{ geom := g, polyId := s.successful + 1, areaM2 := G.area g }] } := by
  obtain ⟨hlen, hids, hrows⟩ := hwf
  refine ⟨by simp [hlen], ?_, ?_⟩
  · show (s.rows ++
        [({ geom := g, polyId := s.successful + 1, areaM2 := G.area g } : SampleRow P)]).map
          (fun r => r.polyId) = List.range' 1 (s.successful + 1)
    rw [List.map_append, hids, List.range'_concat]
    simp [Nat.add_comm]
  · intro r hr
    rcases List.mem_append.mp hr with hold | hnew
    · exact hrows r hold
    · have hr' : r = { geom := g, polyId := s.successful + 1, areaM2 := G.area g } := by
        simpa using hnew
      subst hr'
      exact ⟨rfl, hpos⟩

theorem irregularStep_wf {P : Type} (G : GeomOps P) (sec : P) (cand : ℕ → P)
    (s : SampleState P) (hwf : rowsWellFormed G s) :
    rowsWellFormed G (irregularStep G sec cand s) := by
  unfold irregularStep
  by_cases h1 : G.contains sec (cand s.attempts) = true
  · simp only [h1, if_true]
    by_cases h2 : 0 < G.area (cand s.attempts)
    · simpa [h2] using rowsWellFormed_append G s (cand s.attempts) hwf h2
    · simpa [h2] using hwf
  · have h1' : G.contains sec (cand s.attempts) = false := by simpa using h1
    by_cases h3 : G.overlaps sec (cand s.attempts) = true
    · simp only [h1', h3, Bool.false_eq_true, if_false, if_true]
      cases hI : G.intersect sec (cand s.attempts) with
      | none => simpa using hwf
      | some g =>
          by_cases h2 : 0 < G.area g
          · simpa [h2] using rowsWellFormed_append G s g hwf h2
          · simpa [h2] using hwf
    · have h3' : G.overlaps sec (cand s.attempts) = false := by simpa using h3
      simpa [h1', h3'] using hwf

theorem maskStep_wf {P : Type} (G : GeomOps P) (overlap : P) (cand : ℕ → P)
    (hasData : P → Bool) (s : SampleState P) (hwf : rowsWellFormed G s) :
    rowsWellFormed G (maskStep G overlap cand hasData s) := by
  unfold maskStep
  by_cases h1 : (G.contains overlap (cand s.attempts) ||
      G.overlaps overlap (cand s.attempts)) = true
  · simp only [h1, if_true]
    cases hI : G.intersect overlap (cand s.attempts) with
    | none => simpa using hwf
    | some g =>
        by_cases h2 : 0 < G.area g
        · by_cases h3 : hasData g = true
          · simpa [h2, h3] using rowsWellFormed_append G s g hwf h2
          · simpa [h2, h3] using hwf
        · simpa [h2] using hwf
  · simpa [h1] using hwf

/-- Conjunction asserted by claim C10, for the irregular-section run and the
mask run: rows are in bijection with acceptances, `POLYGON_ID`s are the
consecutive integers `1..successful` in acceptance order, and each `AREA_M2`
equals the stored geometry's area and is strictly positive. -/
def persistedRowsSpec {P : Type} (G : GeomOps P) (sec ov : P)
    (cand cand2 : ℕ → P) (hasData : P → Bool) (n nMask : ℕ) : Prop :=
  rowsWellFormed G (runIrregularSampling G sec cand n) ∧
  rowsWellFormed G (runMaskSampling G ov cand2 hasData nMask)

/-- C10: every persisted sample-polygon row stores `AREA_M2` equal to the
area of its (possibly clipped) geometry, that area is strictly positive, and
the `POLYGON_ID`s of one run are the consecutive integers `1..n` in
acceptance order — for both sampling scripts. -/
theorem sample_rows_ids_and_areas {P : Type} (G : GeomOps P) (sec ov : P)
    (cand cand2 : ℕ → P) (hasData : P → Bool) (n nMask : ℕ) :
    persistedRowsSpec G sec ov cand cand2 hasData n nMask := by
  constructor
  · exact sampleLoop_inv (irregularStep G sec cand) n (rowsWellFormed G)
      (fun s _ hs => irregularStep_wf G sec cand s hs) (n * 15) ⟨0, 0, []⟩
      ⟨rfl, rfl, by simp⟩
  · exact sampleLoop_inv (maskStep G ov cand2 hasData) nMask (rowsWellFormed G)
      (fun s _ hs => maskStep_wf G ov cand2 hasData s hs) (nMask * 20) ⟨0, 0, []⟩
      ⟨rfl, rfl, by simp⟩

/-! ### Claim C2 — stored geometry lies within the region -/

/-- Provenance invariant for the irregular-section loop: every stored row has
positive area and is either a fully-contained candidate stored as-is, or the
intersection of an overlapping candidate with the section. -/
def clipInvariant {P : Type} (G : GeomOps P) (sec : P) (cand : ℕ → P)
    (s : SampleState P) : Prop :=
  ∀ r ∈ s.rows, 0 < G.area r.geom ∧
    ∃ t, (G.contains sec (cand t) = true ∧ r.geom = cand t) ∨
         (G.contains sec (cand t) = false ∧ G.overlaps sec (cand t) = true ∧
           G.intersect sec (cand t) = some r.geom)

/-- Provenance invariant for the mask loop: every stored row is the
intersection of some candidate with the overlap region (this loop clips even
fully-contained candidates). -/
def maskClipInvariant {P : Type} (G : GeomOps P) (ov : P) (cand : ℕ → P)
    (s : SampleState P) : Prop :=
  ∀ r ∈ s.rows, 0 < G.area r.geom ∧ ∃ t, G.intersect ov (cand t) = some r.geom

theorem irregularStep_clip {P : Type} (G : GeomOps P) (sec : P) (cand : ℕ → P)
    (s : SampleState P) (hinv : clipInvariant G sec cand s) :
    clipInvariant G sec cand (irregularStep G sec cand s) := by
  unfold irregularStep
  by_cases h1 : G.contains sec (cand s.attempts) = true
  · simp only [h1, if_true]
    by_cases h2 : 0 < G.area (cand s.attempts)
    · simp only [h2, if_true]
      intro r hr
      rcases List.mem_append.mp hr with hold | hnew
      · exact hinv r hold
      · have hr' : r = ({ geom := cand s.attempts, polyId := s.successful + 1, areaM2 := G.area (cand s.attempts) } : SampleRow P) := by simpa using hnew
        subst hr'
        exact ⟨h2, s.attempts, Or.inl ⟨h1, rfl⟩⟩
    · simpa [h2] using hinv
  · have h1' : G.contains sec (cand s.attempts) = false := by simpa using h1
    by_cases h3 : G.overlaps sec (cand s.attempts) = true
    · simp only [h1', h3, Bool.false_eq_true, if_false, if_true]
      cases hI : G.intersect sec (cand s.attempts) with
      | none => simpa using hinv
      | some g =>
          by_cases h2 : 0 < G.area g
          · simp only [h2, if_true]
            intro r hr
            rcases List.mem_append.mp hr with hold | hnew
            · exact hinv r hold
            · have hr' : r = ({ geom := g, polyId := s.successful + 1, areaM2 := G.area g } : SampleRow P) := by simpa using hnew
              subst hr'
              exact ⟨h2, s.attempts, Or.inr ⟨h1', h3, hI⟩⟩
          · simpa [h2] using hinv
    · have h3' : G.overlaps sec (cand s.attempts) = false := by simpa using h3
      simpa [h1', h3'] using hinv

theorem maskStep_clip {P : Type} (G : GeomOps P) (ov : P) (cand : ℕ → P)
    (hasData : P → Bool) (s : SampleState P)
    (hinv : maskClipInvariant G ov cand s) :
    maskClipInvariant G ov cand (maskStep G ov cand hasData s) := by
  unfold maskStep
  by_cases h1 : (G.contains ov (cand s.attempts) ||
      G.overlaps ov (cand s.attempts)) = true
  · simp only [h1, if_true]
    cases hI : G.intersect ov (cand s.attempts) with
    | none => simpa using hinv
    | some g =>
        by_cases h2 : 0 < G.area g
        · by_cases h3 : hasData g = true
          · simp only [h2, h3, if_true]
            intro r hr
            rcases List.mem_append.mp hr with hold | hnew
            · exact hinv r hold
            · have hr' : r = ({ geom := g, polyId := s.successful + 1, areaM2 := G.area g } : SampleRow P) := by simpa using hnew
              subst hr'
              exact ⟨h2, s.attempts, hI⟩
          · simpa [h2, h3] using hinv
        · simpa [h2] using hinv
  · simpa [h1] using hinv

/-- Conjunction asserted by claim C2, for both sampling scripts, relative to
a point-set semantics `toSet` of the geometry engine: every accepted row has
positive area, is the candidate itself (when fully contained) or the clipped
intersection (on partial overlap), and its point set lies inside the
region's. -/
def clippedGeomSpec {P : Type} (G : GeomOps P) (sec ov : P)
    (cand cand2 : ℕ → P) (hasData : P → Bool) (n nMask : ℕ)
    (toSet : P → Set (ℚ × ℚ)) : Prop :=
  (∀ r ∈ (runIrregularSampling G sec cand n).rows,
      0 < G.area r.geom ∧
      (∃ t, (G.contains sec (cand t) = true ∧ r.geom = cand t) ∨
            (G.contains sec (cand t) = false ∧ G.overlaps sec (cand t) = true ∧
              G.intersect sec (cand t) = some r.geom)) ∧
      toSet r.geom ⊆ toSet sec) ∧
  (∀ r ∈ (runMaskSampling G ov cand2 hasData nMask).rows,
      0 < G.area r.geom ∧
      (∃ t, G.intersect ov (cand2 t) = some r.geom) ∧
      toSet r.geom ⊆ toSet ov)

/-- C2: every accepted sample polygon's stored geometry lies within the
region: fully-contained candidates are stored as-is, partially-overlapping
candidates are stored as their intersection with the region, zero-area clips
are never stored, and consequently `geometry ⊆ region` for every accepted
row (given that the geometry engine's `contains` and `intersect` have their
set-theoretic meaning). -/
theorem sample_geometry_subset_region {P : Type} (G : GeomOps P) (sec ov : P)
    (cand cand2 : ℕ → P) (hasData : P → Bool) (n nMask : ℕ)
    (toSet : P → Set (ℚ × ℚ))
    (hContains : ∀ a b, G.contains a b = true → toSet b ⊆ toSet a)
    (hIntersect : ∀ a b g, G.intersect a b = some g → toSet g ⊆ toSet a) :
    clippedGeomSpec G sec ov cand cand2 hasData n nMask toSet := by
  have hirr : clipInvariant G sec cand (runIrregularSampling G sec cand n) :=
    sampleLoop_inv (irregularStep G sec cand) n (clipInvariant G sec cand)
      (fun s _ hs => irregularStep_clip G sec cand s hs) (n * 15) ⟨0, 0, []⟩
      (by intro r hr; simp at hr)
  have hmask : maskClipInvariant G ov cand2 (runMaskSampling G ov cand2 hasData nMask) :=
    sampleLoop_inv (maskStep G ov cand2 hasData) nMask (maskClipInvariant G ov cand2)
      (fun s _ hs => maskStep_clip G ov cand2 hasData s hs) (nMask * 20) ⟨0, 0, []⟩
      (by intro r hr; simp at hr)
  constructor
  · intro r hr
    obtain ⟨hpos, t, hcase⟩ := hirr r hr
    refine ⟨hpos, ⟨t, hcase⟩, ?_⟩
    rcases hcase with ⟨hc, hgeom⟩ | ⟨_, _, hI⟩
    · rw [hgeom]
      exact hContains sec (cand t) hc
    · exact hIntersect sec (cand t) r.geom hI
  · intro r hr
    obtain ⟨hpos, t, hI⟩ := hmask r hr
    exact ⟨hpos, ⟨t, hI⟩, hIntersect ov (cand2 t) r.geom hI⟩

/-- Set-theoretic soundness of the rectangle engine's `contains`. -/
def boxContainsSound : Prop :=
  ∀ a b : Box, boxOps.contains a b = true → Box.toSet b ⊆ Box.toSet a

/-- Set-theoretic soundness of the rectangle engine's `intersect`. -/
def boxIntersectSound : Prop :=
  ∀ a b g : Box, boxOps.intersect a b = some g → Box.toSet g ⊆ Box.toSet a

theorem box_contains_sound : boxContainsSound := fun _ _ h => boxContains_subset h

theorem box_intersect_sound : boxIntersectSound := fun _ _ _ h => boxOps_intersect_subset h

/-- Witness for C2: the rectangle geometry engine satisfies the semantic
hypotheses, instantiated on a concrete region and candidate stream. -/
theorem sample_geometry_subset_region_witness :
    boxContainsSound ∧ boxIntersectSound ∧
      clippedGeomSpec boxOps ⟨0, 0, 10, 10⟩ ⟨0, 0, 10, 10⟩ (fun _ => ⟨1, 1, 2, 2⟩)
        (fun _ => ⟨1, 1, 2, 2⟩) (fun _ => true) 2 2 Box.toSet :=
  ⟨box_contains_sound, box_intersect_sound,
    sample_geometry_subset_region boxOps ⟨0, 0, 10, 10⟩ ⟨0, 0, 10, 10⟩
      (fun _ => ⟨1, 1, 2, 2⟩) (fun _ => ⟨1, 1, 2, 2⟩) (fun _ => true) 2 2 Box.toSet
      box_contains_sound box_intersect_sound⟩

/-! ### Claim C8 — zero-area regions and no-data rejections -/

/-- Conjunction asserted by the amended claim C8: a null or zero-area overlap
makes `processMask` skip the section with a warning (it raises nothing — in
fact no input makes it raise), and a no-data failure on one candidate merely
consumes that attempt, leaves the accepted rows untouched, and the loop keeps
going. -/
def skipAndRetrySpec {P : Type} (G : GeomOps P) (imagery m : P) (rest : List P)
    (cand : ℕ → P) (hasData : P → Bool) (n : ℕ) : Prop :=
  (∀ ov, G.intersect imagery m = some ov → G.area ov ≤ 0 →
      processMask G imagery (m :: rest) cand hasData n =
        SectionOutcome.skippedNoOverlap) ∧
  (G.intersect imagery m = none →
      processMask G imagery (m :: rest) cand hasData n =
        SectionOutcome.skippedNoOverlap) ∧
  (∀ polys : List P,
      processMask G imagery polys cand hasData n ≠ SectionOutcome.raised) ∧
  (∀ ov (s : SampleState P) g, G.intersect ov (cand s.attempts) = some g →
      hasData g = false →
      maskStep G ov cand hasData s =
        { successful := s.successful, attempts := s.attempts + 1, rows := s.rows }) ∧
  (∀ ov (fuel : ℕ) (s : SampleState P), s.successful < n →
      sampleLoop (maskStep G ov cand hasData) n (fuel + 1) s =
        sampleLoop (maskStep G ov cand hasData) n fuel (maskStep G ov cand hasData s))

/-- C8 (amended): a region whose overlap with the imagery is null or has zero
area does not raise any error — the section is skipped with a warning and no
polygons are generated; a no-data check failure on an individual candidate is
not an error either: that single candidate is rejected and sampling retries
with further candidates. -/
theorem zero_area_skip_and_nodata_retry {P : Type} (G : GeomOps P)
    (imagery m : P) (rest : List P) (cand : ℕ → P) (hasData : P → Bool) (n : ℕ) :
    skipAndRetrySpec G imagery m rest cand hasData n := by
  refine ⟨?_, ?_, ?_, ?_, ?_⟩
  · intro ov hI hA
    simp only [processMask, hI]
    rw [if_neg (not_lt.mpr hA)]
  · intro hI
    simp [processMask, hI]
  · intro polys
    cases polys with
    | nil => simp [processMask]
    | cons m' rest' =>
        simp only [processMask]
        cases hI : G.intersect imagery m' with
        | none => simp
        | some ov => by_cases h : 0 < G.area ov <;> simp [h]
  · intro ov s g hI hD
    unfold maskStep
    by_cases h1 : (G.contains ov (cand s.attempts) ||
        G.overlaps ov (cand s.attempts)) = true
    · simp only [h1, if_true, hI]
      by_cases h2 : 0 < G.area g <;> simp [h2, hD]
    · simp [h1]
  · intro ov fuel s h
    simp [sampleLoop, h]

/-- Counterexample to C8 as stated: for a mask disjoint from the imagery the
overlap has zero area, and `processMask` returns the warning-skip outcome —
not a raised `EmptyRegionError` (the code base defines no such exception and
raises nothing here). -/
theorem zero_area_region_counterexample :
    boxOps.area (boxInter ⟨0, 0, 10, 10⟩ ⟨20, 0, 30, 10⟩) = 0 ∧
    processMask boxOps ⟨0, 0, 10, 10⟩ [⟨20, 0, 30, 10⟩]
        (fun _ => ⟨1, 1, 2, 2⟩) (fun _ => true) 5 =
      SectionOutcome.skippedNoOverlap ∧
    SectionOutcome.skippedNoOverlap ≠ (SectionOutcome.raised : SectionOutcome Box) := by
  refine ⟨?_, ?_, by simp⟩
  · norm_num [boxOps, boxInter, Box.area]
  · norm_num [processMask, boxOps, boxInter, Box.area]

/-! ### Claim C4 — minimum spacing in the random pass -/

theorem distSq_comm (x1 y1 x2 y2 : ℚ) : distSq x1 y1 x2 y2 = distSq x2 y2 x1 y1 := by
  unfold distSq; ring

theorem tooCloseB_eq_false {l : List TrainPoly} {x y minD : ℚ}
    (h : tooCloseB l x y minD = false) :
    ∀ ex ∈ l, minD ^ 2 ≤ distSq x y ex.centerX ex.centerY := by
  intro ex hex
  unfold tooCloseB at h
  rw [List.any_eq_false] at h
  have := h ex hex
  rw [decide_eq_true_iff] at this
  exact le_of_not_lt this

/-- Spacing property relative to a cut index `k`: any pair `(i, j)` with
`i < j` whose later element sits at or beyond `k` is at squared distance at
least `minD ^ 2`. -/
def spacedWrt (k : ℕ) (minD : ℚ) (l : List TrainPoly) : Prop :=
  ∀ i j (pa pb : TrainPoly), l[i]? = some pa → l[j]? = some pb → i < j → k ≤ j →
    minD ^ 2 ≤ distSq pa.centerX pa.centerY pb.centerX pb.centerY

theorem randomLoop_inv (e : Extent) (cellX cellY polySize : ℚ)
    (wdt hgt buf : ℕ) (rands : ℕ → ℚ × ℚ) (isValid : ℚ × ℚ → Bool) (target : ℕ)
    (Inv : RandState → Prop)
    (hstep : ∀ s, s.count < target →
      Inv s → Inv (randomStep e cellX cellY polySize wdt hgt buf rands isValid s)) :
    ∀ (fuel : ℕ) (s : RandState), Inv s →
      Inv (randomLoop e cellX cellY polySize wdt hgt buf rands isValid target fuel s) := by
  intro fuel
  induction fuel with
  | zero => intro s hs; simpa [randomLoop] using hs
  | succ f ih =>
      intro s hs
      by_cases h : s.count < target
      · have heq : randomLoop e cellX cellY polySize wdt hgt buf rands isValid target (f + 1) s
            = randomLoop e cellX cellY polySize wdt hgt buf rands isValid target f
                (randomStep e cellX cellY polySize wdt hgt buf rands isValid s) := by
          simp [randomLoop, h]
        rw [heq]
        exact ih _ (hstep s h hs)
      · simpa [randomLoop, h] using hs

theorem randomStep_spaced (e : Extent) (cellX cellY polySize : ℚ)
    (wdt hgt buf : ℕ) (rands : ℕ → ℚ × ℚ) (isValid : ℚ × ℚ → Bool) (k : ℕ)
    (s : RandState) (hk : k ≤ s.polys.length)
    (hs : spacedWrt k (polySize * 2) s.polys) :
    k ≤ (randomStep e cellX cellY polySize wdt hgt buf rands isValid s).polys.length ∧
      spacedWrt k (polySize * 2)
        (randomStep e cellX cellY polySize wdt hgt buf rands isValid s).polys := by
  unfold randomStep
  by_cases hacc : ((!tooCloseB s.polys
      (e.xmin + ((buf : ℚ) + (rands s.attempts).1 * ((wdt : ℚ) - 2 * buf)) * cellX)
      (e.ymin + ((buf : ℚ) + (rands s.attempts).2 * ((hgt : ℚ) - 2 * buf)) * cellY)
      (polySize * 2)) && isValid
      (e.xmin + ((buf : ℚ) + (rands s.attempts).1 * ((wdt : ℚ) - 2 * buf)) * cellX,
       e.ymin + ((buf : ℚ) + (rands s.attempts).2 * ((hgt : ℚ) - 2 * buf)) * cellY)) = true
  · have hfar : tooCloseB s.polys
        (e.xmin + ((buf : ℚ) + (rands s.attempts).1 * ((wdt : ℚ) - 2 * buf)) * cellX)
        (e.ymin + ((buf : ℚ) + (rands s.attempts).2 * ((hgt : ℚ) - 2 * buf)) * cellY)
        (polySize * 2) = false := by
      rcases Bool.and_eq_true_iff.mp hacc with ⟨hnot, _⟩
      simpa using hnot
    simp only [hacc, if_true]
    constructor
    · simp
      omega
    · intro i j pa pb hpa hpb hij hkj
      have hjlen : j < s.polys.length + 1 := by
        have := hpb
        rw [List.getElem?_eq_some] at this
        simpa using this.1
      rcases Nat.lt_or_ge j s.polys.length with hjlt | hjge
      · have hpa' : s.polys[i]? = some pa := by
          rw [List.getElem?_append_left (by omega)] at hpa
          exact hpa
        have hpb' : s.polys[j]? = some pb := by
          rw [List.getElem?_append_left hjlt] at hpb
          exact hpb
        exact hs i j pa pb hpa' hpb' hij hkj
      · have hjeq : j = s.polys.length := by omega
        subst hjeq
        have hpb' : pb = ⟨Strategy.random,
            e.xmin + ((buf : ℚ) + (rands s.attempts).1 * ((wdt : ℚ) - 2 * buf)) * cellX,
            e.ymin + ((buf : ℚ) + (rands s.attempts).2 * ((hgt : ℚ) - 2 * buf)) * cellY,
            polySize⟩ := by
          have := hpb
          rw [List.getElem?_concat_length] at this
          exact (Option.some_inj.mp this).symm
        have hpa' : s.polys[i]? = some pa := by
          rw [List.getElem?_append_left (by omega)] at hpa
          exact hpa
        have hmem : pa ∈ s.polys := List.getElem?_mem hpa'
        have := tooCloseB_eq_false hfar pa hmem
        subst hpb'
        rw [distSq_comm] at this
        exact this
  · simp only [hacc, Bool.false_eq_true, if_false]
    exact ⟨hk, hs⟩

/-- C4: any two polygons accepted by the random pass of
`generate_stratified_polygons` have center-to-center distance at least
`minSpacing = 2 × polygon size`: each random candidate is rejected whenever
its center is closer than `min_distance` to any previously accepted polygon's
center, so for indices `i < j` beyond the grid-pass prefix the squared
distance is at least `(2·size)²` (equivalently, distance ≥ `2·size`). -/
theorem random_pass_min_spacing (e : Extent) (cellX cellY polySize : ℚ)
    (wdt hgt buf : ℕ) (rands : ℕ → ℚ × ℚ) (isValid : ℚ × ℚ → Bool)
    (target : ℕ) (init : List TrainPoly) (i j : ℕ) (pa pb : TrainPoly)
    (hpa : (runRandomPass e cellX cellY polySize wdt hgt buf rands isValid
        target init).polys[i]? = some pa)
    (hpb : (runRandomPass e cellX cellY polySize wdt hgt buf rands isValid
        target init).polys[j]? = some pb)
    (hij : i < j) (hrand : init.length ≤ i) :
    (polySize * 2) ^ 2 ≤ distSq pa.centerX pa.centerY pb.centerX pb.centerY := by
  have hinv : init.length ≤ (runRandomPass e cellX cellY polySize wdt hgt buf rands
      isValid target init).polys.length ∧
      spacedWrt init.length (polySize * 2)
        (runRandomPass e cellX cellY polySize wdt hgt buf rands isValid
          target init).polys := by
    refine randomLoop_inv e cellX cellY polySize wdt hgt buf rands isValid target
      (fun s => init.length ≤ s.polys.length ∧
        spacedWrt init.length (polySize * 2) s.polys) ?_ (target * 5) ⟨0, 0, init⟩ ?_
    · intro s _ hs
      exact randomStep_spaced e cellX cellY polySize wdt hgt buf rands isValid
        init.length s hs.1 hs.2
    · refine ⟨le_refl _, ?_⟩
      intro i' j' pa' pb' _ hpb' _ hkj'
      have : j' < init.length := by
        have := hpb'
        rw [List.getElem?_eq_some] at this
        simpa using this.1
      omega
  exact hinv.2 i j pa pb hpa hpb hij (by omega)

/-- Witness for C4: a concrete random pass (empty grid prefix, two far-apart
candidates, everything valid) accepts two random polygons at centers `(0,0)`
and `(100,0)`, to which the spacing theorem applies at indices `0 < 1`. -/
theorem random_pass_min_spacing_witness :
    ((runRandomPass ⟨0, 0, 100, 100⟩ 1 1 1 100 100 0
        (fun t => if t = 0 then ((0 : ℚ), (0 : ℚ)) else (1, 0)) (fun _ => true)
        2 []).polys[0]? = some ⟨Strategy.random, 0, 0, 1⟩) ∧
    ((runRandomPass ⟨0, 0, 100, 100⟩ 1 1 1 100 100 0
        (fun t => if t = 0 then ((0 : ℚ), (0 : ℚ)) else (1, 0)) (fun _ => true)
        2 []).polys[1]? = some ⟨Strategy.random, 100, 0, 1⟩) ∧
    (0 : ℕ) < 1 ∧ ([] : List TrainPoly).length ≤ 0 ∧
    ((1 : ℚ) * 2) ^ 2 ≤ distSq 0 0 100 0 := by
  have h0 : (runRandomPass ⟨0, 0, 100, 100⟩ 1 1 1 100 100 0
      (fun t => if t = 0 then ((0 : ℚ), (0 : ℚ)) else (1, 0)) (fun _ => true)
      2 []).polys = [⟨Strategy.random, 0, 0, 1⟩, ⟨Strategy.random, 100, 0, 1⟩] := by
    norm_num [runRandomPass, randomLoop, randomStep, tooCloseB, distSq]
  refine ⟨by rw [h0]; rfl, by rw [h0]; rfl, by decide, by decide, ?_⟩
  exact random_pass_min_spacing ⟨0, 0, 100, 100⟩ 1 1 1 100 100 0
    (fun t => if t = 0 then ((0 : ℚ), (0 : ℚ)) else (1, 0)) (fun _ => true) 2 []
    0 1 ⟨Strategy.random, 0, 0, 1⟩ ⟨Strategy.random, 100, 0, 1⟩
    (by rw [h0]; rfl) (by rw [h0]; rfl) (by decide) (by decide)

/-! ### Claim C7 — the 70/30 split and Scenario B -/

/-- Random-pass candidate center drawn at attempt `t` (lines 143-144). -/
def randCenter (e : Extent) (cellX cellY : ℚ) (wdt hgt buf : ℕ)
    (rands : ℕ → ℚ × ℚ) (t : ℕ) : ℚ × ℚ :=
  (e.xmin + ((buf : ℚ) + (rands t).1 * ((wdt : ℚ) - 2 * buf)) * cellX,
   e.ymin + ((buf : ℚ) + (rands t).2 * ((hgt : ℚ) - 2 * buf)) * cellY)

/-- The random-strategy entry produced from attempt `t` when accepted. -/
def randPolyAt (e : Extent) (cellX cellY polySize : ℚ) (wdt hgt buf : ℕ)
    (rands : ℕ → ℚ × ℚ) (t : ℕ) : TrainPoly :=
  ⟨Strategy.random, (randCenter e cellX cellY wdt hgt buf rands t).1,
    (randCenter e cellX cellY wdt hgt buf rands t).2, polySize⟩

/-- Derived sub-grid position list of one `generate_stratified_polygons`
call. -/
def gridPositionsOf (e : Extent) (cellX cellY polySize : ℚ) (n : ℕ) :
    List (ℕ × ℕ) :=
  gridPositions (rasterWidth e cellX) (rasterHeight e cellY)
    (bufferCells polySize cellX cellY)
    (gridSpacing (rasterWidth e cellX) (gridTargetOf n))
    (gridSpacing (rasterHeight e cellY) (gridTargetOf n))

/-- Grid-based pass of one `generate_stratified_polygons` call. -/
def gridPassOf (e : Extent) (cellX cellY polySize : ℚ) (n : ℕ)
    (jit : ℕ → ℤ × ℤ) (isValid : ℚ × ℚ → Bool) : List TrainPoly :=
  gridPass e cellX cellY polySize (gridTargetOf n) (rasterWidth e cellX)
    (rasterHeight e cellY) (bufferCells polySize cellX cellY)
    (gridSpacing (rasterWidth e cellX) (gridTargetOf n))
    (gridSpacing (rasterHeight e cellY) (gridTargetOf n)) jit isValid

theorem generateStratified_eq (e : Extent) (cellX cellY polySize : ℚ) (n : ℕ)
    (jit : ℕ → ℤ × ℤ) (rands : ℕ → ℚ × ℚ) (isValid : ℚ × ℚ → Bool) :
    generateStratifiedPolygons e cellX cellY polySize n jit rands isValid =
      runRandomPass e cellX cellY polySize (rasterWidth e cellX)
        (rasterHeight e cellY) (bufferCells polySize cellX cellY) rands isValid
        (randomTargetOf n) (gridPassOf e cellX cellY polySize n jit isValid) := rfl

/-- `int(n * 0.7)` over exact rationals is `⌊7n/10⌋`, i.e. natural division. -/
theorem gridTargetOf_eq_div (n : ℕ) : gridTargetOf n = 7 * n / 10 := by
  unfold gridTargetOf
  have h1 : ((n : ℚ) * (7 / 10)) = (((7 * n : ℕ) : ℤ) : ℚ) / ((10 : ℕ) : ℚ) := by
    push_cast
    ring
  rw [h1, Rat.floor_intCast_div_natCast]
  omega

theorem gridTargetOf_le (n : ℕ) : gridTargetOf n ≤ n := by
  rw [gridTargetOf_eq_div]
  omega

theorem gridTarget_add_randomTarget (n : ℕ) :
    gridTargetOf n + randomTargetOf n = n := by
  unfold randomTargetOf
  have := gridTargetOf_le n
  omega

theorem gridPassGo_length_all_valid (e : Extent) (cellX cellY polySize : ℚ)
    (target wdt hgt buf : ℕ) (jit : ℕ → ℤ × ℤ) (isValid : ℚ × ℚ → Bool)
    (hval : ∀ p, isValid p = true) :
    ∀ (l : List (ℕ × ℕ)) (idx count : ℕ) (acc : List TrainPoly),
      (gridPassGo e cellX cellY polySize target wdt hgt buf jit isValid
        l idx count acc).length = acc.length + min (target - count) l.length := by
  intro l
  induction l with
  | nil => intro idx count acc; simp [gridPassGo]
  | cons gp rest ih =>
      intro idx count acc
      by_cases h : target ≤ count
      · have h0 : target - count = 0 := by omega
        simp [gridPassGo, h, h0]
      · simp only [gridPassGo, h, if_false]
        rw [hval]
        simp only [if_true]
        rw [ih]
        simp only [List.length_append, List.length_cons, List.length_nil]
        omega

theorem gridPassGo_strategy (e : Extent) (cellX cellY polySize : ℚ)
    (target wdt hgt buf : ℕ) (jit : ℕ → ℤ × ℤ) (isValid : ℚ × ℚ → Bool) :
    ∀ (l : List (ℕ × ℕ)) (idx count : ℕ) (acc : List TrainPoly),
      (∀ p ∈ acc, p.strategy = Strategy.gridBased) →
      ∀ p ∈ gridPassGo e cellX cellY polySize target wdt hgt buf jit isValid
          l idx count acc, p.strategy = Strategy.gridBased := by
  intro l
  induction l with
  | nil => intro idx count acc hacc; simpa [gridPassGo] using hacc
  | cons gp rest ih =>
      intro idx count acc hacc
      by_cases h : target ≤ count
      · simpa [gridPassGo, h] using hacc
      · simp only [gridPassGo, h, if_false]
        by_cases hv : isValid
            (e.xmin + ((clampJitter (buf : ℤ) ((wdt : ℤ) - buf)
              ((gp.2 : ℤ) + (jit idx).1) : ℤ) : ℚ) * cellX,
             e.ymin + ((clampJitter (buf : ℤ) ((hgt : ℤ) - buf)
              ((gp.1 : ℤ) + (jit idx).2) : ℤ) : ℚ) * cellY) = true
        · rw [if_pos hv]
          refine ih (idx + 1) (count + 1) _ ?_
          intro p hp
          rcases List.mem_append.mp hp with hold | hnew
          · exact hacc p hold
          · have hp' := List.mem_singleton.mp hnew
            subst hp'
            rfl
        · rw [if_neg hv]
          exact ih (idx + 1) count acc hacc

/-- Random-pass center of one `generate_stratified_polygons` call. -/
def randCenterOf (e : Extent) (cellX cellY polySize : ℚ) (rands : ℕ → ℚ × ℚ)
    (t : ℕ) : ℚ × ℚ :=
  randCenter e cellX cellY (rasterWidth e cellX) (rasterHeight e cellY)
    (bufferCells polySize cellX cellY) rands t

theorem randomLoop_all_accept (e : Extent) (cellX cellY polySize : ℚ)
    (wdt hgt buf : ℕ) (rands : ℕ → ℚ × ℚ) (isValid : ℚ × ℚ → Bool) (target : ℕ)
    (init : List TrainPoly)
    (hval : ∀ p, isValid p = true)
    (hfar1 : ∀ t, ∀ p ∈ init, (polySize * 2) ^ 2 ≤
        distSq (randCenter e cellX cellY wdt hgt buf rands t).1
          (randCenter e cellX cellY wdt hgt buf rands t).2 p.centerX p.centerY)
    (hfar2 : ∀ t s, s ≠ t → (polySize * 2) ^ 2 ≤
        distSq (randCenter e cellX cellY wdt hgt buf rands t).1
          (randCenter e cellX cellY wdt hgt buf rands t).2
          (randCenter e cellX cellY wdt hgt buf rands s).1
          (randCenter e cellX cellY wdt hgt buf rands s).2) :
    ∀ (fuel : ℕ) (s : RandState),
      s.attempts = s.count →
      s.polys = init ++ (List.range s.count).map
        (randPolyAt e cellX cellY polySize wdt hgt buf rands) →
      s.count ≤ target → target ≤ s.count + fuel →
      (randomLoop e cellX cellY polySize wdt hgt buf rands isValid target
          fuel s).count = target ∧
      (randomLoop e cellX cellY polySize wdt hgt buf rands isValid target
          fuel s).polys = init ++ (List.range target).map
            (randPolyAt e cellX cellY polySize wdt hgt buf rands) := by
  intro fuel
  induction fuel with
  | zero =>
      intro s ha hp hle hfu
      have hc : s.count = target := by omega
      simp only [randomLoop]
      exact ⟨hc, by rw [hp, hc]⟩
  | succ f ih =>
      intro s ha hp hle hfu
      by_cases h : s.count < target
      · have hclose : tooCloseB s.polys
            (randCenter e cellX cellY wdt hgt buf rands s.attempts).1
            (randCenter e cellX cellY wdt hgt buf rands s.attempts).2
            (polySize * 2) = false := by
          unfold tooCloseB
          rw [List.any_eq_false]
          intro ex hex
          simp only [decide_eq_true_eq]
          rw [hp] at hex
          rcases List.mem_append.mp hex with hinit | hmap
          · exact not_lt.mpr (hfar1 s.attempts ex hinit)
          · rw [List.mem_map] at hmap
            obtain ⟨t', ht', rfl⟩ := hmap
            rw [List.mem_range] at ht'
            have hne : t' ≠ s.attempts := by omega
            exact not_lt.mpr (hfar2 s.attempts t' hne)
        have hcond : ((!tooCloseB s.polys
            (e.xmin + ((buf : ℚ) + (rands s.attempts).1 * ((wdt : ℚ) - 2 * buf)) * cellX)
            (e.ymin + ((buf : ℚ) + (rands s.attempts).2 * ((hgt : ℚ) - 2 * buf)) * cellY)
            (polySize * 2)) && isValid
            (e.xmin + ((buf : ℚ) + (rands s.attempts).1 * ((wdt : ℚ) - 2 * buf)) * cellX,
             e.ymin + ((buf : ℚ) + (rands s.attempts).2 * ((hgt : ℚ) - 2 * buf)) * cellY)) =
            true := by
          rw [hval, Bool.and_true]
          have hx : (e.xmin + ((buf : ℚ) + (rands s.attempts).1 * ((wdt : ℚ) - 2 * buf)) * cellX)
              = (randCenter e cellX cellY wdt hgt buf rands s.attempts).1 := rfl
          have hy : (e.ymin + ((buf : ℚ) + (rands s.attempts).2 * ((hgt : ℚ) - 2 * buf)) * cellY)
              = (randCenter e cellX cellY wdt hgt buf rands s.attempts).2 := rfl
          rw [hx, hy, hclose]
          rfl
        have hstep : randomStep e cellX cellY polySize wdt hgt buf rands isValid s =
            ⟨s.attempts + 1, s.count + 1,
              s.polys ++ [randPolyAt e cellX cellY polySize wdt hgt buf rands s.attempts]⟩ := by
          unfold randomStep
          rw [if_pos hcond]
          rfl
        have heq : randomLoop e cellX cellY polySize wdt hgt buf rands isValid target
            (f + 1) s = randomLoop e cellX cellY polySize wdt hgt buf rands isValid
              target f (randomStep e cellX cellY polySize wdt hgt buf rands isValid s) := by
          simp [randomLoop, h]
        rw [heq, hstep]
        refine ih _ (by simp [ha]) ?_ (by simpa using h) (by simp; omega)
        show s.polys ++ [randPolyAt e cellX cellY polySize wdt hgt buf rands s.attempts]
          = init ++ (List.range (s.count + 1)).map
              (randPolyAt e cellX cellY polySize wdt hgt buf rands)
        rw [hp, ha, List.range_succ, List.map_append, List.append_assoc]
        rfl
      · have hc : s.count = target := by omega
        simp only [randomLoop, h, if_false]
        exact ⟨hc, by rw [hp, hc]⟩

/-- Conjunction asserted by claim C7: the split is `⌊0.7·n⌋` grid-based plus
`n - ⌊0.7·n⌋` random (7 + 3 for `n = 10`), and — when every location is
valid, enough sub-grid positions exist, and the random draws respect the
spacing rule — the run accepts exactly `n` polygons with zero shortfall,
`gridTargetOf n` of them grid-based and `randomTargetOf n` random. -/
def stratifiedSplitSpec (e : Extent) (cellX cellY polySize : ℚ) (n : ℕ)
    (jit : ℕ → ℤ × ℤ) (rands : ℕ → ℚ × ℚ) (isValid : ℚ × ℚ → Bool) : Prop :=
  (∀ m : ℕ, gridTargetOf m = 7 * m / 10 ∧ gridTargetOf m + randomTargetOf m = m) ∧
  gridTargetOf 10 = 7 ∧ randomTargetOf 10 = 3 ∧
  acceptedCount (generateStratifiedPolygons e cellX cellY polySize n jit rands isValid) = n ∧
  shortfallOf n (generateStratifiedPolygons e cellX cellY polySize n jit rands isValid) = 0 ∧
  ((generateStratifiedPolygons e cellX cellY polySize n jit rands isValid).polys.filter
      (fun p => decide (p.strategy = Strategy.gridBased))).length = gridTargetOf n ∧
  ((generateStratifiedPolygons e cellX cellY polySize n jit rands isValid).polys.filter
      (fun p => decide (p.strategy = Strategy.random))).length = randomTargetOf n

/-- C7: `generate_stratified_polygons` targets exactly `int(0.7·n)` grid-based
polygons and `n - int(0.7·n)` random ones; for `n = 10` that is 7 + 3, and
when all candidates are valid the manifest reports `accepted = n` and
`shortfall = 0`. -/
theorem stratified_split_70_30 (e : Extent) (cellX cellY polySize : ℚ) (n : ℕ)
    (jit : ℕ → ℤ × ℤ) (rands : ℕ → ℚ × ℚ) (isValid : ℚ × ℚ → Bool)
    (hval : ∀ p, isValid p = true)
    (hpos : gridTargetOf n ≤ (gridPositionsOf e cellX cellY polySize n).length)
    (hfar1 : ∀ t, ∀ p ∈ gridPassOf e cellX cellY polySize n jit isValid,
        (polySize * 2) ^ 2 ≤ distSq (randCenterOf e cellX cellY polySize rands t).1
          (randCenterOf e cellX cellY polySize rands t).2 p.centerX p.centerY)
    (hfar2 : ∀ t s, s ≠ t → (polySize * 2) ^ 2 ≤
        distSq (randCenterOf e cellX cellY polySize rands t).1
          (randCenterOf e cellX cellY polySize rands t).2
          (randCenterOf e cellX cellY polySize rands s).1
          (randCenterOf e cellX cellY polySize rands s).2) :
    stratifiedSplitSpec e cellX cellY polySize n jit rands isValid := by
  have hgridlen : (gridPassOf e cellX cellY polySize n jit isValid).length =
      gridTargetOf n := by
    unfold gridPassOf gridPass
    rw [gridPassGo_length_all_valid _ _ _ _ _ _ _ _ _ _ hval]
    simp only [List.length_nil, Nat.zero_add, Nat.sub_zero]
    exact Nat.min_eq_left hpos
  have hgridstrat : ∀ p ∈ gridPassOf e cellX cellY polySize n jit isValid,
      p.strategy = Strategy.gridBased := by
    unfold gridPassOf gridPass
    exact gridPassGo_strategy _ _ _ _ _ _ _ _ _ _ _ _ _ _ (by intro p hp; simp at hp)
  have hrun := randomLoop_all_accept e cellX cellY polySize (rasterWidth e cellX)
    (rasterHeight e cellY) (bufferCells polySize cellX cellY) rands isValid
    (randomTargetOf n) (gridPassOf e cellX cellY polySize n jit isValid) hval
    (fun t p hp => hfar1 t p hp) (fun t s hst => hfar2 t s hst)
    (randomTargetOf n * 5) ⟨0, 0, gridPassOf e cellX cellY polySize n jit isValid⟩
    rfl (by simp) (Nat.zero_le _) (by omega)
  have hpolys : (generateStratifiedPolygons e cellX cellY polySize n jit rands
      isValid).polys = gridPassOf e cellX cellY polySize n jit isValid ++
        (List.range (randomTargetOf n)).map
          (randPolyAt e cellX cellY polySize (rasterWidth e cellX)
            (rasterHeight e cellY) (bufferCells polySize cellX cellY) rands) := by
    rw [generateStratified_eq]
    exact hrun.2
  have haccept : acceptedCount (generateStratifiedPolygons e cellX cellY polySize
      n jit rands isValid) = n := by
    unfold acceptedCount
    rw [hpolys]
    simp only [List.length_append, List.length_map, List.length_range, hgridlen]
    exact gridTarget_add_randomTarget n
  refine ⟨fun m => ⟨gridTargetOf_eq_div m, gridTarget_add_randomTarget m⟩,
    by rw [gridTargetOf_eq_div], by unfold randomTargetOf; rw [gridTargetOf_eq_div],
    haccept, ?_, ?_, ?_⟩
  · unfold shortfallOf
    rw [haccept]
    omega
  · rw [hpolys, List.filter_append]
    have h1 : (gridPassOf e cellX cellY polySize n jit isValid).filter
        (fun p => decide (p.strategy = Strategy.gridBased)) =
        gridPassOf e cellX cellY polySize n jit isValid := by
      rw [List.filter_eq_self]
      intro p hp
      simp [hgridstrat p hp]
    have h2 : ((List.range (randomTargetOf n)).map
        (randPolyAt e cellX cellY polySize (rasterWidth e cellX)
          (rasterHeight e cellY) (bufferCells polySize cellX cellY) rands)).filter
        (fun p => decide (p.strategy = Strategy.gridBased)) = [] := by
      rw [List.filter_eq_nil_iff]
      intro p hp
      rw [List.mem_map] at hp
      obtain ⟨t, _, rfl⟩ := hp
      simp [randPolyAt]
    rw [h1, h2]
    simp [hgridlen]
  · rw [hpolys, List.filter_append]
    have h1 : (gridPassOf e cellX cellY polySize n jit isValid).filter
        (fun p => decide (p.strategy = Strategy.random)) = [] := by
      rw [List.filter_eq_nil_iff]
      intro p hp
      simp [hgridstrat p hp]
    have h2 : ((List.range (randomTargetOf n)).map
        (randPolyAt e cellX cellY polySize (rasterWidth e cellX)
          (rasterHeight e cellY) (bufferCells polySize cellX cellY) rands)).filter
        (fun p => decide (p.strategy = Strategy.random)) =
        (List.range (randomTargetOf n)).map
          (randPolyAt e cellX cellY polySize (rasterWidth e cellX)
            (rasterHeight e cellY) (bufferCells polySize cellX cellY) rands) := by
      rw [List.filter_eq_self]
      intro p hp
      rw [List.mem_map] at hp
      obtain ⟨t, _, rfl⟩ := hp
      simp [randPolyAt]
    rw [h1, h2]
    simp

theorem sqrt_seven : Nat.sqrt 7 = 2 := by
  have h1 : 2 ≤ Nat.sqrt 7 := by
    rw [Nat.le_sqrt]
    norm_num
  have h2 : Nat.sqrt 7 < 3 := by
    rw [Nat.sqrt_lt]
    norm_num
  omega

set_option maxHeartbeats 1000000 in
/-- Witness for C7 at Scenario B's numbers: a `(0,0,100,100)` extent at 1 m
cells, polygon size 6, target 10, zero jitter, all locations valid, and
random draws marching along the top edge (far from the seven grid points and
from each other). -/
theorem stratified_split_70_30_witness :
    stratifiedSplitSpec ⟨0, 0, 100, 100⟩ 1 1 6 10 (fun _ => (0, 0))
      (fun t => ((t : ℚ), 1)) (fun _ => true) := by
  have hg7 : gridTargetOf 10 = 7 := by rw [gridTargetOf_eq_div]
  have hw : rasterWidth ⟨0, 0, 100, 100⟩ 1 = 100 := by
    unfold rasterWidth
    norm_num
    decide
  have hh : rasterHeight ⟨0, 0, 100, 100⟩ 1 = 100 := by
    unfold rasterHeight
    norm_num
    decide
  have hb : bufferCells 6 1 1 = 8 := by
    unfold bufferCells polygonSizeCells
    norm_num
    decide
  have hs : gridSpacing 100 7 = 33 := by
    unfold gridSpacing
    rw [sqrt_seven]
  have hpositions : gridPositions 100 100 8 33 33 =
      [(8, 8), (8, 41), (8, 74), (41, 8), (41, 41), (41, 74),
       (74, 8), (74, 41), (74, 74)] := by decide
  have hposOf : gridPositionsOf ⟨0, 0, 100, 100⟩ 1 1 6 10 =
      [(8, 8), (8, 41), (8, 74), (41, 8), (41, 41), (41, 74),
       (74, 8), (74, 41), (74, 74)] := by
    unfold gridPositionsOf
    rw [hw, hh, hb, hg7, hs]
    exact hpositions
  have hpos : gridTargetOf 10 ≤ (gridPositionsOf ⟨0, 0, 100, 100⟩ 1 1 6 10).length := by
    rw [hg7, hposOf]
    decide
  have hgridpass : gridPassOf ⟨0, 0, 100, 100⟩ 1 1 6 10 (fun _ => (0, 0))
      (fun _ => true) =
      [⟨Strategy.gridBased, 8, 8, 6⟩, ⟨Strategy.gridBased, 41, 8, 6⟩,
       ⟨Strategy.gridBased, 74, 8, 6⟩, ⟨Strategy.gridBased, 8, 41, 6⟩,
       ⟨Strategy.gridBased, 41, 41, 6⟩, ⟨Strategy.gridBased, 74, 41, 6⟩,
       ⟨Strategy.gridBased, 8, 74, 6⟩] := by
    unfold gridPassOf gridPass
    rw [hw, hh, hb, hg7, hs, hpositions]
    norm_num [gridPassGo, clampJitter]
  have hcenter : ∀ t : ℕ, randCenterOf ⟨0, 0, 100, 100⟩ 1 1 6
      (fun t => ((t : ℚ), 1)) t = (8 + 84 * (t : ℚ), 92) := by
    intro t
    unfold randCenterOf randCenter
    rw [hw, hh, hb]
    norm_num
    ring
  have hfar1 : ∀ t : ℕ, ∀ p ∈ gridPassOf ⟨0, 0, 100, 100⟩ 1 1 6 10
      (fun _ => (0, 0)) (fun _ => true),
      ((6 : ℚ) * 2) ^ 2 ≤ distSq (randCenterOf ⟨0, 0, 100, 100⟩ 1 1 6
        (fun t => ((t : ℚ), 1)) t).1
        (randCenterOf ⟨0, 0, 100, 100⟩ 1 1 6 (fun t => ((t : ℚ), 1)) t).2
        p.centerX p.centerY := by
    intro t p hp
    rw [hgridpass] at hp
    rw [hcenter t]
    unfold distSq
    fin_cases hp <;> dsimp only <;>
      nlinarith [sq_nonneg (8 + 84 * (t : ℚ) - 8), sq_nonneg (8 + 84 * (t : ℚ) - 41),
        sq_nonneg (8 + 84 * (t : ℚ) - 74)]
  have hfar2 : ∀ t s : ℕ, s ≠ t → ((6 : ℚ) * 2) ^ 2 ≤
      distSq (randCenterOf ⟨0, 0, 100, 100⟩ 1 1 6 (fun t => ((t : ℚ), 1)) t).1
        (randCenterOf ⟨0, 0, 100, 100⟩ 1 1 6 (fun t => ((t : ℚ), 1)) t).2
        (randCenterOf ⟨0, 0, 100, 100⟩ 1 1 6 (fun t => ((t : ℚ), 1)) s).1
        (randCenterOf ⟨0, 0, 100, 100⟩ 1 1 6 (fun t => ((t : ℚ), 1)) s).2 := by
    intro t s hst
    rw [hcenter t, hcenter s]
    unfold distSq
    dsimp only
    rcases Nat.lt_or_ge s t with hlt | hge
    · have hle : (s : ℚ) + 1 ≤ (t : ℚ) := by exact_mod_cast hlt
      nlinarith
    · have hlt : t < s := Nat.lt_of_le_of_ne hge fun h => hst h.symm
      have hle : (t : ℚ) + 1 ≤ (s : ℚ) := by exact_mod_cast hlt
      nlinarith
  exact stratified_split_70_30 ⟨0, 0, 100, 100⟩ 1 1 6 10 (fun _ => (0, 0))
    (fun t => ((t : ℚ), 1)) (fun _ => true) (fun _ => rfl) hpos hfar1 hfar2

/-! ### Claim C9 — the irregular-jittered polygon generator

`create_random_irregular_polygon` appears in two variants:
`create_random_polygons_in_sections.py` lines 14-45 (`randint(6, 12)`
vertices, angle jitter `uniform(-0.26, 0.26)`, radius factor
`uniform(0.5, 1.5)`) and `create_random_polygons_in_irregular_sections.py`
lines 14-45 (`randint(8, 15)`, `uniform(-0.35, 0.35)`, `uniform(0.6, 1.4)`).
Both place vertex `i` at `actual_angle = i * (2π/K) + jitter` and
`actual_radius = base * factor`, then close the ring by appending the first
vertex.  The embedding records each vertex's polar data; the emitted point is
`center + radius·(cos angle, sin angle)`, a per-vertex postcomposition that
carries no further information.  `math.pi` is embedded by its decimal
value. -/

def mathPi : ℚ := 3141592653589793 / 10 ^ 15

/-- Polar data `(actual_angle, actual_radius)` of one generated vertex. -/
structure PolarVertex where
  angle : ℚ
  radius : ℚ
deriving DecidableEq

/-- Vertex list of `create_random_irregular_polygon`: `numVertices` jittered
vertices in base-angle order, then the first vertex again (line 41). -/
def irregularPolygonVertices (numVertices : ℕ) (angleJit radiusJit : ℕ → ℚ)
    (baseRadius : ℚ) : List PolarVertex :=
  let angleStep := 2 * mathPi / numVertices
  let verts := (List.range numVertices).map (fun i =>
    { angle := (i : ℚ) * angleStep + angleJit i, radius := baseRadius * radiusJit i })
  verts ++ verts.take 1

theorem irregularPolygonVertices_get (K : ℕ) (aj rj : ℕ → ℚ) (b : ℚ)
    (i : ℕ) (hi : i < K) :
    (irregularPolygonVertices K aj rj b)[i]? =
      some ⟨(i : ℚ) * (2 * mathPi / K) + aj i, b * rj i⟩ := by
  unfold irregularPolygonVertices
  rw [List.getElem?_append_left (by simpa using hi), List.getElem?_map,
    List.getElem?_range hi]
  rfl

/-- Conjunction asserted by the amended claim C9 for one generator call with
`K` vertices: the ring has `K + 1` entries, entry `K` repeats entry `0`,
vertex `i` carries base angle `i·(2π/K)` plus its jitter and radius
`base · factor`, the jittered angles are strictly increasing across the `K`
fresh vertices, and every radius lies in `[½·base, 3/2·base]`. -/
def irregularRingSpec (K : ℕ) (aj rj : ℕ → ℚ) (b : ℚ) : Prop :=
  (irregularPolygonVertices K aj rj b).length = K + 1 ∧
  (irregularPolygonVertices K aj rj b)[K]? = (irregularPolygonVertices K aj rj b)[0]? ∧
  (∀ i, i < K → (irregularPolygonVertices K aj rj b)[i]? =
      some ⟨(i : ℚ) * (2 * mathPi / K) + aj i, b * rj i⟩) ∧
  (∀ i j (va vb : PolarVertex),
      (irregularPolygonVertices K aj rj b)[i]? = some va →
      (irregularPolygonVertices K aj rj b)[j]? = some vb →
      i < j → j < K → va.angle < vb.angle) ∧
  (∀ i (v : PolarVertex), i < K →
      (irregularPolygonVertices K aj rj b)[i]? = some v →
      b * (1 / 2) ≤ v.radius ∧ v.radius ≤ b * (3 / 2))

/-- C9 (amended): for the 6-12-vertex generator with angle jitter bounded by
`±0.26` radians and radius factor in `[0.5, 1.5]`, every generated ring has
`K` vertices at base angles `2πi/K` with independent bounded angle jitter and
independent radius jitter, the jittered angles strictly increase, and the
ring is closed by repeating the first vertex as the last.  (The 8-15-vertex
`±0.35` variant satisfies everything except strict angle order — see the
counterexample.) -/
theorem irregular_polygon_ring (K : ℕ) (aj rj : ℕ → ℚ) (b : ℚ)
    (hK1 : 6 ≤ K) (hK2 : K ≤ 12)
    (hjit : ∀ i, -(26 / 100 : ℚ) ≤ aj i ∧ aj i ≤ 26 / 100)
    (hrad : ∀ i, (1 / 2 : ℚ) ≤ rj i ∧ rj i ≤ 3 / 2)
    (hb : 0 < b) :
    irregularRingSpec K aj rj b := by
  have hKpos : 0 < K := by omega
  have hKQ : (0 : ℚ) < K := by exact_mod_cast hKpos
  have hpi : (312 / 100 : ℚ) < mathPi := by norm_num [mathPi]
  have hSpos : 0 < 2 * mathPi / K := by
    apply div_pos (by linarith) hKQ
  have hstep : 2 * mathPi / 12 ≤ 2 * mathPi / K := by
    apply div_le_div_of_nonneg_left (by linarith) hKQ
    exact_mod_cast hK2
  refine ⟨?_, ?_, fun i hi => irregularPolygonVertices_get K aj rj b i hi, ?_, ?_⟩
  · unfold irregularPolygonVertices
    simp [Nat.min_eq_left hKpos]
  · have hfirst : (irregularPolygonVertices K aj rj b)[0]? =
        some ⟨(0 : ℚ) * (2 * mathPi / K) + aj 0, b * rj 0⟩ :=
      irregularPolygonVertices_get K aj rj b 0 hKpos
    have hlast : (irregularPolygonVertices K aj rj b)[K]? =
        some ⟨(0 : ℚ) * (2 * mathPi / K) + aj 0, b * rj 0⟩ := by
      unfold irregularPolygonVertices
      rw [List.getElem?_append_right (by simp)]
      simp only [List.length_map, List.length_range, Nat.sub_self]
      rw [List.getElem?_take, if_pos (by omega : (0 : ℕ) < 1), List.getElem?_map,
        List.getElem?_range hKpos]
      rfl
    rw [hfirst, hlast]
  · intro i j va vb hva hvb hij hjK
    have hiK : i < K := by omega
    rw [irregularPolygonVertices_get K aj rj b i hiK] at hva
    rw [irregularPolygonVertices_get K aj rj b j hjK] at hvb
    obtain rfl := Option.some_inj.mp hva
    obtain rfl := Option.some_inj.mp hvb
    show (i : ℚ) * (2 * mathPi / K) + aj i < (j : ℚ) * (2 * mathPi / K) + aj j
    have hij' : (i : ℚ) + 1 ≤ (j : ℚ) := by exact_mod_cast hij
    have hprod : ((j : ℚ) - i - 1) * (2 * mathPi / K) ≥ 0 :=
      mul_nonneg (by linarith) (le_of_lt hSpos)
    have hji : (aj i) - (aj j) ≤ 52 / 100 := by
      have h1 := (hjit i).2
      have h2 := (hjit j).1
      linarith
    nlinarith [hstep, hpi, hprod]
  · intro i v hi hv
    rw [irregularPolygonVertices_get K aj rj b i hi] at hv
    obtain rfl := Option.some_inj.mp hv
    show b * (1 / 2) ≤ b * rj i ∧ b * rj i ≤ b * (3 / 2)
    constructor
    · exact mul_le_mul_of_nonneg_left (hrad i).1 (le_of_lt hb)
    · exact mul_le_mul_of_nonneg_left (hrad i).2 (le_of_lt hb)

/-- Witness for C9 at `K = 6`, zero jitter, unit radius factor, base radius 4
(the mask script's `polygon_size`). -/
theorem irregular_polygon_ring_witness :
    (6 ≤ 6 ∧ 6 ≤ 12 ∧ (0 : ℚ) < 4) ∧
      irregularRingSpec 6 (fun _ => 0) (fun _ => 1) 4 :=
  ⟨⟨by decide, by decide, by norm_num⟩,
    irregular_polygon_ring 6 (fun _ => 0) (fun _ => 1) 4 (by decide) (by decide)
      (fun i => by norm_num) (fun i => by norm_num) (by norm_num)⟩

/-- Extreme-but-legal angle jitters for the `uniform(-0.35, 0.35)` variant. -/
def wideJit : ℕ → ℚ := fun i => if i = 0 then 35 / 100 else if i = 1 then -(35 / 100) else 0

/-- Every `wideJit` value is a legal `uniform(-0.35, 0.35)` draw. -/
def wideJitLegal : Prop := ∀ i, -(35 / 100 : ℚ) ≤ wideJit i ∧ wideJit i ≤ 35 / 100

theorem wideJit_legal : wideJitLegal := by
  intro i
  unfold wideJit
  split_ifs <;> norm_num

/-- Counterexample to C9 as stated: in the 8-15-vertex `±0.35` variant
(`create_random_polygons_in_irregular_sections.py`), a legal draw with
`K = 10`, jitter `+0.35` on vertex 0 and `-0.35` on vertex 1 produces a ring
whose second vertex has a *smaller* actual angle than the first, so the
vertices are not listed in increasing angle order. -/
theorem irregular_angle_order_counterexample :
    wideJitLegal ∧ 8 ≤ 10 ∧ 10 ≤ 15 ∧
    (irregularPolygonVertices 10 wideJit (fun _ => 1) 3)[0]? =
      some ⟨35 / 100, 3⟩ ∧
    (irregularPolygonVertices 10 wideJit (fun _ => 1) 3)[1]? =
      some ⟨2 * mathPi / 10 - 35 / 100, 3⟩ ∧
    2 * mathPi / 10 - 35 / 100 < 35 / 100 := by
  refine ⟨wideJit_legal, by decide, by decide, ?_, ?_, by norm_num [mathPi]⟩
  · rw [irregularPolygonVertices_get 10 wideJit (fun _ => 1) 3 0 (by decide)]
    norm_num [wideJit]
  · rw [irregularPolygonVertices_get 10 wideJit (fun _ => 1) 3 1 (by decide)]
    norm_num [wideJit]
    ring

end SegTiles
